import Mathlib

/-!
Shallow embedding of the csg.ts constructive solid geometry library
(`src/csg.ts`) and proofs about its central algorithms.

Modelling conventions:

* JavaScript `number` is modelled by `ℚ` (exact arithmetic).  `Math.sqrt`,
  which the source uses only inside `Vector.unit()` (reached via
  `Plane.fromPoints`, i.e. the `Polygon` constructor), is modelled by an
  explicit function parameter `sq : ℚ → ℚ`; every theorem below is proved
  for an arbitrary `sq`.  Concrete evaluations instantiate `sq` with
  `ratSqrt`, which agrees with the real square root on every input that
  actually occurs in those evaluations (perfect squares of rationals).
* Mutation is modelled by explicit state passing: a method that mutates
  `this` becomes a function returning the updated value.
* `Node.invert` dereferences `this.plane!` with a non-null assertion; the
  embedding returns `Option` and yields `none` exactly when the source
  would throw a `TypeError`.
* `Node.build` recurses on polygon lists produced by splitting, which is
  not structurally decreasing, so the embedding takes a fuel parameter;
  `none` means the fuel ran out.  The emptiness check of the source
  (`if (!polygons.length) return;`) is performed before fuel is consumed,
  exactly as the source returns before any recursive call.
* The polymorphic `shared` tag (TypeScript `unknown`, possibly
  `undefined`) is modelled by `Option S` for a type parameter `S`.
-/

namespace Csg

/-- 3D vector, `class Vector` of csg.ts: fields `x y z : number`. -/
structure Vector where
  x : ℚ
  y : ℚ
  z : ℚ
deriving DecidableEq, Repr, Inhabited

namespace Vector

/-- `Vector.clone()`: `new Vector(this.x, this.y, this.z)`. -/
def clone (v : Vector) : Vector := ⟨v.x, v.y, v.z⟩

/-- `Vector.negated()`. -/
def negated (v : Vector) : Vector := ⟨-v.x, -v.y, -v.z⟩

/-- `Vector.plus(a)`. -/
def plus (v a : Vector) : Vector := ⟨v.x + a.x, v.y + a.y, v.z + a.z⟩

/-- `Vector.minus(a)`. -/
def minus (v a : Vector) : Vector := ⟨v.x - a.x, v.y - a.y, v.z - a.z⟩

/-- `Vector.times(a)`. -/
def times (v : Vector) (a : ℚ) : Vector := ⟨v.x * a, v.y * a, v.z * a⟩

/-- `Vector.dividedBy(a)`. -/
def dividedBy (v : Vector) (a : ℚ) : Vector := ⟨v.x / a, v.y / a, v.z / a⟩

/-- `Vector.dot(a)`. -/
def dot (v a : Vector) : ℚ := v.x * a.x + v.y * a.y + v.z * a.z

/-- `Vector.lerp(a, t)`: `this.plus(a.minus(this).times(t))`. -/
def lerp (v a : Vector) (t : ℚ) : Vector := v.plus ((a.minus v).times t)

/-- `Vector.length()`: `Math.sqrt(this.dot(this))`, with `Math.sqrt`
abstracted as `sq`. -/
def length (sq : ℚ → ℚ) (v : Vector) : ℚ := sq (v.dot v)

/-- `Vector.unit()`: `this.dividedBy(this.length())`. -/
def unit (sq : ℚ → ℚ) (v : Vector) : Vector := v.dividedBy (v.length sq)

/-- `Vector.cross(a)`. -/
def cross (v a : Vector) : Vector :=
  ⟨v.y * a.z - v.z * a.y, v.z * a.x - v.x * a.z, v.x * a.y - v.y * a.x⟩

end Vector

/-- `class Vertex` of csg.ts: a position and a normal. -/
structure Vertex where
  pos : Vector
  normal : Vector
deriving DecidableEq, Repr, Inhabited

namespace Vertex

/-- `Vertex.clone()`: deep copy of both vectors. -/
def clone (v : Vertex) : Vertex := ⟨v.pos.clone, v.normal.clone⟩

/-- `Vertex.flip()`: `this.normal = this.normal.negated()`. -/
def flip (v : Vertex) : Vertex := ⟨v.pos, v.normal.negated⟩

/-- `Vertex.interpolate(other, t)`: lerp of position and normal. -/
def interpolate (v other : Vertex) (t : ℚ) : Vertex :=
  ⟨v.pos.lerp other.pos t, v.normal.lerp other.normal t⟩

end Vertex

/-- `class Plane` of csg.ts: `normal` and offset `w`. -/
structure Plane where
  normal : Vector
  w : ℚ
deriving DecidableEq, Repr, Inhabited

namespace Plane

/-- `Plane.EPSILON = 1e-5`, the on-plane classification tolerance. -/
def EPSILON : ℚ := 1 / 100000

/-- `Plane.fromPoints(a, b, c)`:
`n = b.minus(a).cross(c.minus(a)).unit(); new Plane(n, n.dot(a))`. -/
def fromPoints (sq : ℚ → ℚ) (a b c : Vector) : Plane :=
  let n := ((b.minus a).cross (c.minus a)).unit sq
  ⟨n, n.dot a⟩

/-- `Plane.clone()`. -/
def clone (p : Plane) : Plane := ⟨p.normal.clone, p.w⟩

/-- `Plane.flip()`: negate normal and `w`. -/
def flip (p : Plane) : Plane := ⟨p.normal.negated, -p.w⟩

end Plane

/-- `class Polygon` of csg.ts: vertex loop, opaque shared tag, cached
plane.  The `shared` field (`unknown`, possibly `undefined`) is modelled
by `Option S`. -/
structure Polygon (S : Type) where
  vertices : List Vertex
  shared : Option S
  plane : Plane
deriving DecidableEq, Repr, Inhabited

namespace Polygon

/-- The `Polygon` constructor: stores the vertices and the shared tag and
derives `plane` from the first three vertices
(`Plane.fromPoints(vertices[0].pos, vertices[1].pos, vertices[2].pos)`).
The source would throw on fewer than three vertices; here missing entries
read as the default vertex. -/
def new {S : Type} (sq : ℚ → ℚ) (vertices : List Vertex) (shared : Option S) : Polygon S :=
  { vertices := vertices
    shared := shared
    plane := Plane.fromPoints sq (vertices.getD 0 default).pos (vertices.getD 1 default).pos
      (vertices.getD 2 default).pos }

/-- `Polygon.clone()`: clones every vertex and rebuilds the polygon via
the constructor (which recomputes the plane), keeping the shared tag. -/
def clone {S : Type} (sq : ℚ → ℚ) (p : Polygon S) : Polygon S :=
  Polygon.new sq (p.vertices.map Vertex.clone) p.shared

/-- `Polygon.flip()`: reverse the vertex order, flip every vertex, flip
the plane. -/
def flip {S : Type} (p : Polygon S) : Polygon S :=
  { vertices := (p.vertices.reverse).map Vertex.flip
    shared := p.shared
    plane := p.plane.flip }

end Polygon

namespace Plane

/-- `COPLANAR = 0` of `splitPolygon`. -/
def COPLANAR : ℕ := 0

/-- `FRONT = 1` of `splitPolygon`. -/
def FRONT : ℕ := 1

/-- `BACK = 2` of `splitPolygon`. -/
def BACK : ℕ := 2

/-- `SPANNING = 3` of `splitPolygon`. -/
def SPANNING : ℕ := 3

/-- Per-vertex classification of `splitPolygon`:
`t = this.normal.dot(v.pos) - this.w`;
`BACK` if `t < -EPSILON`, `FRONT` if `t > EPSILON`, else `COPLANAR`. -/
def vertexType (pl : Plane) (v : Vertex) : ℕ :=
  let t := pl.normal.dot v.pos - pl.w
  if t < -EPSILON then BACK else if t > EPSILON then FRONT else COPLANAR

/-- The `types` array of `splitPolygon`. -/
def vertexTypes {S : Type} (pl : Plane) (polygon : Polygon S) : List ℕ :=
  polygon.vertices.map (vertexType pl)

/-- `polygonType`: the bitwise OR of all per-vertex classifications,
accumulated from `0` in vertex order. -/
def polygonTypeOf {S : Type} (pl : Plane) (polygon : Polygon S) : ℕ :=
  (vertexTypes pl polygon).foldl (· ||| ·) 0

/-- One step of the edge walk of `splitPolygon`'s `SPANNING` case: given
the chains `(f, b)` so far and the edge from index `i` to
`j = (i+1) % n`, append the kept endpoint and the interpolated crossing
vertex exactly as the source pushes them. -/
def spanStep {S : Type} (pl : Plane) (polygon : Polygon S) (fb : List Vertex × List Vertex)
    (i : ℕ) : List Vertex × List Vertex :=
  let n := polygon.vertices.length
  let j := (i + 1) % n
  let ti := (vertexTypes pl polygon).getD i 0
  let tj := (vertexTypes pl polygon).getD j 0
  let vi := polygon.vertices.getD i default
  let vj := polygon.vertices.getD j default
  let f := fb.1 ++ (if ti ≠ BACK then [vi] else [])
  let b := fb.2 ++ (if ti ≠ FRONT then [if ti ≠ BACK then vi.clone else vi] else [])
  if (ti ||| tj) = SPANNING then
    let t := (pl.w - pl.normal.dot vi.pos) / (pl.normal.dot (vj.pos.minus vi.pos))
    let v := vi.interpolate vj t
    (f ++ [v], b ++ [v.clone])
  else
    (f, b)

/-- The two vertex chains `f` and `b` accumulated by the `SPANNING` case
of `splitPolygon`. -/
def spanChains {S : Type} (pl : Plane) (polygon : Polygon S) : List Vertex × List Vertex :=
  (List.range polygon.vertices.length).foldl (spanStep pl polygon) ([], [])

end Plane

/-- The polygons pushed by one `splitPolygon` call into each of its four
output arrays `coplanarFront`, `coplanarBack`, `front`, `back`.  Call
sites that pass the same array for two parameters concatenate the
corresponding fields. -/
structure SplitOut (S : Type) where
  coplanarFront : List (Polygon S)
  coplanarBack : List (Polygon S)
  front : List (Polygon S)
  back : List (Polygon S)
deriving DecidableEq, Repr

namespace Plane

/-- `Plane.splitPolygon(polygon, coplanarFront, coplanarBack, front,
back)`: classify the polygon by the bitwise OR of its per-vertex types
and route it (or its two split fragments) to the four output lists. -/
def splitPolygon {S : Type} (sq : ℚ → ℚ) (pl : Plane) (polygon : Polygon S) : SplitOut S :=
  let polygonType := polygonTypeOf pl polygon
  if polygonType = COPLANAR then
    if pl.normal.dot polygon.plane.normal > 0 then ⟨[polygon], [], [], []⟩
    else ⟨[], [polygon], [], []⟩
  else if polygonType = FRONT then ⟨[], [], [polygon], []⟩
  else if polygonType = BACK then ⟨[], [], [], [polygon]⟩
  else
    let fb := spanChains pl polygon
    ⟨[], [],
      if fb.1.length ≥ 3 then [Polygon.new sq fb.1 polygon.shared] else [],
      if fb.2.length ≥ 3 then [Polygon.new sq fb.2 polygon.shared] else []⟩

end Plane

/-- `class Node` of csg.ts: a BSP tree node with an optional splitting
plane, optional front/back subtrees and the polygons lying on the
plane. -/
inductive Node (S : Type) : Type where
  | mk (plane : Option Plane) (front : Option (Node S)) (back : Option (Node S))
      (polygons : List (Polygon S))
deriving Repr

namespace Node

/-- The `plane` field. -/
def plane {S : Type} : Node S → Option Plane
  | .mk pl _ _ _ => pl

/-- The `front` field. -/
def front {S : Type} : Node S → Option (Node S)
  | .mk _ fr _ _ => fr

/-- The `back` field. -/
def back {S : Type} : Node S → Option (Node S)
  | .mk _ _ bk _ => bk

/-- The `polygons` field. -/
def polygons {S : Type} : Node S → List (Polygon S)
  | .mk _ _ _ ps => ps

/-- `new Node()` without arguments: all fields null / empty. -/
def empty {S : Type} : Node S := .mk none none none []

mutual

/-- `Node.invert()`: flip every polygon, flip `this.plane!` (a `none`
plane makes the source throw, modelled by `none`), invert both children
and swap them. -/
def invert {S : Type} : Node S → Option (Node S)
  | .mk pl fr bk ps =>
    pl.bind fun p =>
      (invertO fr).bind fun fr' =>
        (invertO bk).bind fun bk' =>
          some (.mk (some p.flip) bk' fr' (ps.map Polygon.flip))

/-- `invert` lifted to an optional child: `if (this.front)
this.front.invert()`. -/
def invertO {S : Type} : Option (Node S) → Option (Option (Node S))
  | none => some none
  | some n => (invert n).map some

end

mutual

/-- `Node.clipPolygons(polygons)`: with no plane return the input list
unchanged (`polygons.slice()`); otherwise split every polygon, sending
both the coplanar-front and front pushes to the local `front` array and
both the coplanar-back and back pushes to the local `back` array
(the source call is `splitPolygon(polygons[i], front, back, front,
back)`), recurse into existing children, discard the back list when
there is no back child, and return front results followed by back
results. -/
def clipPolygons {S : Type} (sq : ℚ → ℚ) : Node S → List (Polygon S) → List (Polygon S)
  | .mk none _ _ _, polygons => polygons
  | .mk (some pl) fr bk _, polygons =>
    let acc := polygons.foldl
      (fun (acc : List (Polygon S) × List (Polygon S)) p =>
        let out := pl.splitPolygon sq p
        (acc.1 ++ out.coplanarFront ++ out.front, acc.2 ++ out.coplanarBack ++ out.back))
      ([], [])
    let frontRes := clipPolygonsO sq fr acc.1
    let backRes := match bk with
      | some b => clipPolygons sq b acc.2
      | none => []
    frontRes ++ backRes

/-- `clipPolygons` through an optional front child: absent children pass
the list through unchanged. -/
def clipPolygonsO {S : Type} (sq : ℚ → ℚ) : Option (Node S) → List (Polygon S) → List (Polygon S)
  | none, polygons => polygons
  | some n, polygons => clipPolygons sq n polygons

end

mutual

/-- `Node.clipTo(bsp)`: replace this node's polygons by
`bsp.clipPolygons(this.polygons)` and recurse into both children with
the same `bsp`. -/
def clipTo {S : Type} (sq : ℚ → ℚ) : Node S → Node S → Node S
  | .mk pl fr bk ps, bsp => .mk pl (clipToO sq fr bsp) (clipToO sq bk bsp) (bsp.clipPolygons sq ps)

/-- `clipTo` on an optional child. -/
def clipToO {S : Type} (sq : ℚ → ℚ) : Option (Node S) → Node S → Option (Node S)
  | none, _ => none
  | some n, bsp => some (clipTo sq n bsp)

end

mutual

/-- `Node.allPolygons()`: this node's polygons, then the front subtree's,
then the back subtree's. -/
def allPolygons {S : Type} : Node S → List (Polygon S)
  | .mk _ fr bk ps => ps ++ allPolygonsO fr ++ allPolygonsO bk

/-- `allPolygons` of an optional child. -/
def allPolygonsO {S : Type} : Option (Node S) → List (Polygon S)
  | none => []
  | some n => allPolygons n

end

/-- `Node.build(polygons)`, with fuel for the non-structural recursion:
return unchanged on an empty list; otherwise adopt the first polygon's
cloned plane if there is none yet, split every polygon (coplanar pushes
go to this node's own `polygons` list, the source call being
`splitPolygon(polygons[i], this.polygons, this.polygons, front, back)`),
and recursively build any non-empty front/back lists into (possibly
newly created) children. -/
def build {S : Type} (sq : ℚ → ℚ) : ℕ → Node S → List (Polygon S) → Option (Node S)
  | _, node, [] => some node
  | 0, _, _ => none
  | fuel + 1, .mk pl0 fr0 bk0 ps0, polygons =>
    let pl := match pl0 with
      | some p => p
      | none => (polygons.headD default).plane.clone
    let acc := polygons.foldl
      (fun (acc : List (Polygon S) × List (Polygon S) × List (Polygon S)) p =>
        let out := pl.splitPolygon sq p
        (acc.1 ++ out.coplanarFront ++ out.coplanarBack, acc.2.1 ++ out.front,
          acc.2.2 ++ out.back))
      (ps0, [], [])
    let frM : Option (Option (Node S)) :=
      if acc.2.1.isEmpty then some fr0
      else (build sq fuel (fr0.getD empty) acc.2.1).map some
    let bkM : Option (Option (Node S)) :=
      if acc.2.2.isEmpty then some bk0
      else (build sq fuel (bk0.getD empty) acc.2.2).map some
    frM.bind fun fr' => bkM.bind fun bk' => some (.mk (some pl) fr' bk' acc.1)

/-- `new Node(polygons)`: a fresh node built from the list. -/
def new {S : Type} (sq : ℚ → ℚ) (fuel : ℕ) (polygons : List (Polygon S)) : Option (Node S) :=
  build sq fuel empty polygons

mutual

/-- Every node of the tree carries a non-null plane. -/
def planesOk {S : Type} : Node S → Bool
  | .mk pl fr bk _ => pl.isSome && planesOkO fr && planesOkO bk

/-- `planesOk` of an optional child (vacuously true when absent). -/
def planesOkO {S : Type} : Option (Node S) → Bool
  | none => true
  | some n => planesOk n

end

end Node

/-- `class CSG` of csg.ts: a flat polygon container. -/
structure CSG (S : Type) where
  polygons : List (Polygon S)
deriving DecidableEq, Repr

namespace CSG

/-- `CSG.fromPolygons(polygons)`. -/
def fromPolygons {S : Type} (polygons : List (Polygon S)) : CSG S := ⟨polygons⟩

/-- `CSG.clone()`: clone every polygon. -/
def clone {S : Type} (sq : ℚ → ℚ) (c : CSG S) : CSG S :=
  ⟨c.polygons.map (Polygon.clone sq)⟩

/-- `CSG.union(csg)`:
`a.clipTo(b); b.clipTo(a); b.invert(); b.clipTo(a); b.invert();
a.build(b.allPolygons());` on trees built from clones of both inputs. -/
def union {S : Type} (sq : ℚ → ℚ) (fuel : ℕ) (this csg : CSG S) : Option (CSG S) := do
  let a0 ← Node.new sq fuel (this.clone sq).polygons
  let b0 ← Node.new sq fuel (csg.clone sq).polygons
  let a1 := a0.clipTo sq b0
  let b1 := b0.clipTo sq a1
  let b2 ← b1.invert
  let b3 := b2.clipTo sq a1
  let b4 ← b3.invert
  let a2 ← Node.build sq fuel a1 b4.allPolygons
  pure (fromPolygons a2.allPolygons)

/-- `CSG.subtract(csg)`: like `union` but with `a.invert()` before the
clip sequence and again after the final `build`. -/
def subtract {S : Type} (sq : ℚ → ℚ) (fuel : ℕ) (this csg : CSG S) : Option (CSG S) := do
  let a0 ← Node.new sq fuel (this.clone sq).polygons
  let b0 ← Node.new sq fuel (csg.clone sq).polygons
  let a1 ← a0.invert
  let a2 := a1.clipTo sq b0
  let b1 := b0.clipTo sq a2
  let b2 ← b1.invert
  let b3 := b2.clipTo sq a2
  let b4 ← b3.invert
  let a3 ← Node.build sq fuel a2 b4.allPolygons
  let a4 ← a3.invert
  pure (fromPolygons a4.allPolygons)

/-- `CSG.intersect(csg)`:
`a.invert(); b.clipTo(a); b.invert(); a.clipTo(b); b.clipTo(a);
a.build(b.allPolygons()); a.invert();`. -/
def intersect {S : Type} (sq : ℚ → ℚ) (fuel : ℕ) (this csg : CSG S) : Option (CSG S) := do
  let a0 ← Node.new sq fuel (this.clone sq).polygons
  let b0 ← Node.new sq fuel (csg.clone sq).polygons
  let a1 ← a0.invert
  let b1 := b0.clipTo sq a1
  let b2 ← b1.invert
  let a2 := a1.clipTo sq b2
  let b3 := b2.clipTo sq a2
  let a3 ← Node.build sq fuel a2 b3.allPolygons
  let a4 ← a3.invert
  pure (fromPolygons a4.allPolygons)

/-- `CSG.inverse()`: clone, then flip every polygon of the clone. -/
def inverse {S : Type} (sq : ℚ → ℚ) (c : CSG S) : CSG S :=
  ⟨(c.clone sq).polygons.map Polygon.flip⟩

end CSG

/-- Floor square root on `ℕ` by bounded search; unlike `Nat.sqrt` it
reduces inside the kernel, so `decide` can evaluate it. -/
def natSqrt (n : ℕ) : ℕ := ((List.range (n + 1)).filter (fun k => k * k ≤ n)).length - 1

/-- Exact rational square root used to instantiate `sq` in concrete
evaluations: correct (equal to the real square root, hence to
`Math.sqrt`, which is exact there) whenever numerator and denominator
are perfect squares, as in every concrete computation below. -/
def ratSqrt (q : ℚ) : ℚ := (natSqrt q.num.natAbs : ℚ) / (natSqrt q.den : ℚ)

/-- Vertex positions of every polygon of a solid, in order: the data the
spec's "compared by vertex positions" refers to. -/
def positionLists {S : Type} (c : CSG S) : List (List Vector) :=
  c.polygons.map (fun p => p.vertices.map Vertex.pos)

/-- `positionLists` as an unordered multiset. -/
def positionMultiset {S : Type} (c : CSG S) : Multiset (List Vector) :=
  (positionLists c : List (List Vector))

/-- Flattened tree polygons as a multiset of vertex-position lists. -/
def nodePositionMultiset {S : Type} (n : Node S) : Multiset (List Vector) :=
  (n.allPolygons.map (fun p => p.vertices.map Vertex.pos) : List (List Vector))

/-- Refinement definition following the spec's words: the clip-and-build
sequence both `union` and `subtract` share,
`a.clipTo(b); b.clipTo(a); b.invert(); b.clipTo(a); b.invert();
a.build(b.allPolygons())`, returning the merged `a` tree. -/
def unionSkeleton {S : Type} (sq : ℚ → ℚ) (fuel : ℕ) (a0 b0 : Node S) : Option (Node S) := do
  let a1 := a0.clipTo sq b0
  let b1 := b0.clipTo sq a1
  let b2 ← b1.invert
  let b3 := b2.clipTo sq a1
  let b4 ← b3.invert
  Node.build sq fuel a1 b4.allPolygons

/-!
Object-store embedding, used for the frame claim that the boolean
operators never mutate their argument solids.  JavaScript objects with
identity and in-place mutation are modelled explicitly: `Vertex` objects
(shared between an input polygon and its split fragments, and mutated in
place by `flip`) and `Polygon` objects (shared between lists and trees,
mutated in place by `flip`) live in two stores addressed by ids;
`Vector` values and `Plane` objects are never aliased or reachable from
two owners in the source, so they are inlined as values, and `Node`
objects are exclusively owned, so trees are values whose polygon lists
hold polygon ids.  Every method mutating `this` becomes a function
returning the updated store.
-/

/-- Vertex object id. -/
abbrev VId := ℕ

/-- Polygon object id. -/
abbrev PId := ℕ

/-- Stored state of a `Polygon` object: vertex object ids, shared tag,
inline plane. -/
structure PolyVal (S : Type) where
  vertices : List VId
  shared : Option S
  plane : Plane
deriving DecidableEq, Repr, Inhabited

/-- The object store: all `Vertex` and `Polygon` objects. -/
structure Heap (S : Type) where
  verts : List Vertex
  polys : List (PolyVal S)
deriving DecidableEq, Repr, Inhabited

namespace Heap

/-- Read a vertex object. -/
def vert {S : Type} (h : Heap S) (i : VId) : Vertex := h.verts.getD i default

/-- Read a polygon object. -/
def poly {S : Type} (h : Heap S) (i : PId) : PolyVal S := h.polys.getD i default

/-- Overwrite a vertex object in place. -/
def setVert {S : Type} (h : Heap S) (i : VId) (v : Vertex) : Heap S :=
  { h with verts := h.verts.set i v }

/-- Overwrite a polygon object in place. -/
def setPoly {S : Type} (h : Heap S) (i : PId) (p : PolyVal S) : Heap S :=
  { h with polys := h.polys.set i p }

/-- Allocate a fresh vertex object. -/
def pushVert {S : Type} (h : Heap S) (v : Vertex) : VId × Heap S :=
  (h.verts.length, { h with verts := h.verts ++ [v] })

/-- Allocate a fresh polygon object. -/
def pushPoly {S : Type} (h : Heap S) (p : PolyVal S) : PId × Heap S :=
  (h.polys.length, { h with polys := h.polys ++ [p] })

end Heap

/-- `Vertex.flip()` on an object: negate the stored normal in place. -/
def vertexFlipH {S : Type} (h : Heap S) (i : VId) : Heap S := h.setVert i (h.vert i).flip

/-- `Vertex.clone()` on an object: allocate a fresh copy. -/
def vertexCloneH {S : Type} (h : Heap S) (i : VId) : VId × Heap S := h.pushVert (h.vert i).clone

/-- `Vertex.interpolate(other, t)` on objects: allocate the lerped
vertex. -/
def vertexInterpolateH {S : Type} (h : Heap S) (i j : VId) (t : ℚ) : VId × Heap S :=
  h.pushVert ((h.vert i).interpolate (h.vert j) t)

/-- The `Polygon` constructor on objects: allocate a polygon whose plane
is derived from the positions of the first three vertex objects. -/
def polygonNewH {S : Type} (sq : ℚ → ℚ) (h : Heap S) (vs : List VId) (shared : Option S) :
    PId × Heap S :=
  h.pushPoly ⟨vs, shared,
    Plane.fromPoints sq (h.vert (vs.getD 0 0)).pos (h.vert (vs.getD 1 0)).pos
      (h.vert (vs.getD 2 0)).pos⟩

/-- `Polygon.clone()` on objects: clone every vertex object, then run
the constructor (which recomputes the plane) on the fresh ids. -/
def polygonCloneH {S : Type} (sq : ℚ → ℚ) (h : Heap S) (pid : PId) : PId × Heap S :=
  let val := h.poly pid
  let acc := val.vertices.foldl
    (fun (acc : List VId × Heap S) vid =>
      let n := vertexCloneH acc.2 vid
      (acc.1 ++ [n.1], n.2))
    ([], h)
  polygonNewH sq acc.2 acc.1 val.shared

/-- `Polygon.flip()` on an object: reverse the stored vertex id list and
flip the inline plane, then flip every referenced vertex object in
place. -/
def polygonFlipH {S : Type} (h : Heap S) (pid : PId) : Heap S :=
  let val := h.poly pid
  let h1 := h.setPoly pid ⟨val.vertices.reverse, val.shared, val.plane.flip⟩
  val.vertices.foldl vertexFlipH h1

/-- The `types` array of `splitPolygon` over stored vertices. -/
def vertexTypesH {S : Type} (h : Heap S) (pl : Plane) (val : PolyVal S) : List ℕ :=
  val.vertices.map (fun vid => Plane.vertexType pl (h.vert vid))

/-- One step of the `SPANNING` edge walk of `splitPolygon` on objects:
push the kept endpoint id (the back chain receiving a clone when the
vertex also went to the front chain) and allocate the interpolated
crossing vertex (front chain) plus its clone (back chain). -/
def spanStepH {S : Type} (pl : Plane) (val : PolyVal S) (types : List ℕ)
    (st : (List VId × List VId) × Heap S) (i : ℕ) : (List VId × List VId) × Heap S :=
  let n := val.vertices.length
  let j := (i + 1) % n
  let ti := types.getD i 0
  let tj := types.getD j 0
  let vi := val.vertices.getD i 0
  let vj := val.vertices.getD j 0
  let f := st.1.1 ++ (if ti ≠ Plane.BACK then [vi] else [])
  let bh : List VId × Heap S :=
    if ti ≠ Plane.FRONT then
      if ti ≠ Plane.BACK then
        let c := vertexCloneH st.2 vi
        (st.1.2 ++ [c.1], c.2)
      else (st.1.2 ++ [vi], st.2)
    else (st.1.2, st.2)
  if (ti ||| tj) = Plane.SPANNING then
    let h := bh.2
    let t := (pl.w - pl.normal.dot (h.vert vi).pos) /
      (pl.normal.dot ((h.vert vj).pos.minus (h.vert vi).pos))
    let v := vertexInterpolateH h vi vj t
    let c := vertexCloneH v.2 v.1
    ((f ++ [v.1], bh.1 ++ [c.1]), c.2)
  else ((f, bh.1), bh.2)

/-- The four polygon-id lists one `splitPolygon` call pushes. -/
structure SplitOutH where
  coplanarFront : List PId
  coplanarBack : List PId
  front : List PId
  back : List PId
deriving DecidableEq, Repr

/-- `Plane.splitPolygon` on objects: classify the stored polygon, route
non-spanning polygons by id (no allocation, no mutation), and for
spanning polygons build the two chains, allocating fragment polygons for
chains of at least 3 vertices. -/
def splitPolygonH {S : Type} (sq : ℚ → ℚ) (h : Heap S) (pl : Plane) (pid : PId) :
    SplitOutH × Heap S :=
  let val := h.poly pid
  let types := vertexTypesH h pl val
  let polygonType := types.foldl (· ||| ·) 0
  if polygonType = Plane.COPLANAR then
    if pl.normal.dot val.plane.normal > 0 then (⟨[pid], [], [], []⟩, h)
    else (⟨[], [pid], [], []⟩, h)
  else if polygonType = Plane.FRONT then (⟨[], [], [pid], []⟩, h)
  else if polygonType = Plane.BACK then (⟨[], [], [], [pid]⟩, h)
  else
    let fbh := (List.range val.vertices.length).foldl (spanStepH pl val types) (([], []), h)
    let fr : List PId × Heap S :=
      if fbh.1.1.length ≥ 3 then
        let n := polygonNewH sq fbh.2 fbh.1.1 val.shared
        ([n.1], n.2)
      else ([], fbh.2)
    let bk : List PId × Heap S :=
      if fbh.1.2.length ≥ 3 then
        let n := polygonNewH sq fr.2 fbh.1.2 val.shared
        ([n.1], n.2)
      else ([], fr.2)
    (⟨[], [], fr.1, bk.1⟩, bk.2)

/-- BSP tree over polygon objects: `Node` objects are exclusively owned,
so the tree itself is a value; its polygon lists hold ids. -/
inductive NodeH : Type where
  | mk (plane : Option Plane) (front : Option NodeH) (back : Option NodeH)
      (polygons : List PId)
deriving Repr

namespace NodeH

/-- `new Node()`: empty node. -/
def empty : NodeH := .mk none none none []

mutual

/-- `Node.invert()` on objects: flip every polygon object held at every
node in place, flip the node planes, swap children; `none` when a plane
is null. -/
def invert {S : Type} (h : Heap S) : NodeH → Option (NodeH × Heap S)
  | .mk pl fr bk ps =>
    pl.bind fun p =>
      let h1 := ps.foldl polygonFlipH h
      (invertO h1 fr).bind fun fr' =>
        (invertO fr'.2 bk).bind fun bk' =>
          some (.mk (some p.flip) bk'.1 fr'.1 ps, bk'.2)

/-- `invert` on an optional child. -/
def invertO {S : Type} (h : Heap S) : Option NodeH → Option (Option NodeH × Heap S)
  | none => some (none, h)
  | some n => (invert h n).map fun nh => (some nh.1, nh.2)

end

mutual

/-- `Node.clipPolygons(polygons)` on objects. -/
def clipPolygons {S : Type} (sq : ℚ → ℚ) (h : Heap S) :
    NodeH → List PId → List PId × Heap S
  | .mk none _ _ _, polygons => (polygons, h)
  | .mk (some pl) fr bk _, polygons =>
    let acc := polygons.foldl
      (fun (acc : (List PId × List PId) × Heap S) pid =>
        let out := splitPolygonH sq acc.2 pl pid
        ((acc.1.1 ++ out.1.coplanarFront ++ out.1.front,
          acc.1.2 ++ out.1.coplanarBack ++ out.1.back), out.2))
      (([], []), h)
    let frontRes := clipPolygonsO sq acc.2 fr acc.1.1
    let backRes : List PId × Heap S := match bk with
      | some b => clipPolygons sq frontRes.2 b acc.1.2
      | none => ([], frontRes.2)
    (frontRes.1 ++ backRes.1, backRes.2)

/-- `clipPolygons` through an optional front child. -/
def clipPolygonsO {S : Type} (sq : ℚ → ℚ) (h : Heap S) :
    Option NodeH → List PId → List PId × Heap S
  | none, polygons => (polygons, h)
  | some n, polygons => clipPolygons sq h n polygons

end

mutual

/-- `Node.clipTo(bsp)` on objects. -/
def clipTo {S : Type} (sq : ℚ → ℚ) (h : Heap S) : NodeH → NodeH → NodeH × Heap S
  | .mk pl fr bk ps, bsp =>
    let psh := clipPolygons sq h bsp ps
    let frh := clipToO sq psh.2 fr bsp
    let bkh := clipToO sq frh.2 bk bsp
    (.mk pl frh.1 bkh.1 psh.1, bkh.2)

/-- `clipTo` on an optional child. -/
def clipToO {S : Type} (sq : ℚ → ℚ) (h : Heap S) :
    Option NodeH → NodeH → Option NodeH × Heap S
  | none, _ => (none, h)
  | some n, bsp =>
    let nh := clipTo sq h n bsp
    (some nh.1, nh.2)

end

mutual

/-- `Node.allPolygons()` on objects: pure read of the id lists. -/
def allPolygons : NodeH → List PId
  | .mk _ fr bk ps => ps ++ allPolygonsO fr ++ allPolygonsO bk

/-- `allPolygons` of an optional child. -/
def allPolygonsO : Option NodeH → List PId
  | none => []
  | some n => allPolygons n

end

/-- `Node.build(polygons)` on objects, with fuel. -/
def build {S : Type} (sq : ℚ → ℚ) : ℕ → Heap S → NodeH → List PId → Option (NodeH × Heap S)
  | _, h, node, [] => some (node, h)
  | 0, _, _, _ => none
  | fuel + 1, h, .mk pl0 fr0 bk0 ps0, polygons =>
    let pl := match pl0 with
      | some p => p
      | none => ((h.poly (polygons.headD 0)).plane).clone
    let acc := polygons.foldl
      (fun (acc : (List PId × List PId × List PId) × Heap S) pid =>
        let out := splitPolygonH sq acc.2 pl pid
        ((acc.1.1 ++ out.1.coplanarFront ++ out.1.coplanarBack,
          acc.1.2.1 ++ out.1.front, acc.1.2.2 ++ out.1.back), out.2))
      ((ps0, [], []), h)
    let frM : Option (Option NodeH × Heap S) :=
      if acc.1.2.1.isEmpty then some (fr0, acc.2)
      else (build sq fuel acc.2 (fr0.getD empty) acc.1.2.1).map fun nh => (some nh.1, nh.2)
    frM.bind fun frh =>
      let bkM : Option (Option NodeH × Heap S) :=
        if acc.1.2.2.isEmpty then some (bk0, frh.2)
        else (build sq fuel frh.2 (bk0.getD empty) acc.1.2.2).map fun nh => (some nh.1, nh.2)
      bkM.bind fun bkh => some (.mk (some pl) frh.1 bkh.1 acc.1.1, bkh.2)

/-- `new Node(polygons)` on objects. -/
def new {S : Type} (sq : ℚ → ℚ) (fuel : ℕ) (h : Heap S) (polygons : List PId) :
    Option (NodeH × Heap S) :=
  build sq fuel h empty polygons

end NodeH

/-- `CSG.clone()` on objects: clone every polygon object of the solid,
returning the fresh id list. -/
def csgCloneH {S : Type} (sq : ℚ → ℚ) (h : Heap S) (ps : List PId) : List PId × Heap S :=
  ps.foldl
    (fun (acc : List PId × Heap S) pid =>
      let n := polygonCloneH sq acc.2 pid
      (acc.1 ++ [n.1], n.2))
    ([], h)

/-- `CSG.union(csg)` on objects: the argument solids are the id lists
`a` and `b`; the result is the id list of the merged solid together
with the final store.  Each step reads the pair returned by the
previous one (`.1` the object, `.2` the store). -/
def unionH {S : Type} (sq : ℚ → ℚ) (fuel : ℕ) (h : Heap S) (a b : List PId) :
    Option (List PId × Heap S) := do
  let ca := csgCloneH sq h a
  let na ← NodeH.new sq fuel ca.2 ca.1
  let cb := csgCloneH sq na.2 b
  let nb ← NodeH.new sq fuel cb.2 cb.1
  let c1 := NodeH.clipTo sq nb.2 na.1 nb.1
  let c2 := NodeH.clipTo sq c1.2 nb.1 c1.1
  let i1 ← NodeH.invert c2.2 c2.1
  let c3 := NodeH.clipTo sq i1.2 i1.1 c1.1
  let i2 ← NodeH.invert c3.2 c3.1
  let bd ← NodeH.build sq fuel i2.2 c1.1 (NodeH.allPolygons i2.1)
  pure (NodeH.allPolygons bd.1, bd.2)

/-- `CSG.subtract(csg)` on objects. -/
def subtractH {S : Type} (sq : ℚ → ℚ) (fuel : ℕ) (h : Heap S) (a b : List PId) :
    Option (List PId × Heap S) := do
  let ca := csgCloneH sq h a
  let na ← NodeH.new sq fuel ca.2 ca.1
  let cb := csgCloneH sq na.2 b
  let nb ← NodeH.new sq fuel cb.2 cb.1
  let ia ← NodeH.invert nb.2 na.1
  let c1 := NodeH.clipTo sq ia.2 ia.1 nb.1
  let c2 := NodeH.clipTo sq c1.2 nb.1 c1.1
  let i1 ← NodeH.invert c2.2 c2.1
  let c3 := NodeH.clipTo sq i1.2 i1.1 c1.1
  let i2 ← NodeH.invert c3.2 c3.1
  let bd ← NodeH.build sq fuel i2.2 c1.1 (NodeH.allPolygons i2.1)
  let fa ← NodeH.invert bd.2 bd.1
  pure (NodeH.allPolygons fa.1, fa.2)

/-- `CSG.intersect(csg)` on objects. -/
def intersectH {S : Type} (sq : ℚ → ℚ) (fuel : ℕ) (h : Heap S) (a b : List PId) :
    Option (List PId × Heap S) := do
  let ca := csgCloneH sq h a
  let na ← NodeH.new sq fuel ca.2 ca.1
  let cb := csgCloneH sq na.2 b
  let nb ← NodeH.new sq fuel cb.2 cb.1
  let ia ← NodeH.invert nb.2 na.1
  let c1 := NodeH.clipTo sq ia.2 nb.1 ia.1
  let i1 ← NodeH.invert c1.2 c1.1
  let c2 := NodeH.clipTo sq i1.2 ia.1 i1.1
  let c3 := NodeH.clipTo sq c2.2 i1.1 c2.1
  let bd ← NodeH.build sq fuel c3.2 c2.1 (NodeH.allPolygons c3.1)
  let fa ← NodeH.invert bd.2 bd.1
  pure (NodeH.allPolygons fa.1, fa.2)

/-- `CSG.inverse()` on objects: clone the solid, then flip every cloned
polygon object in place. -/
def inverseH {S : Type} (sq : ℚ → ℚ) (h : Heap S) (a : List PId) : List PId × Heap S :=
  let ca := csgCloneH sq h a
  (ca.1, ca.1.foldl polygonFlipH ca.2)

/-- No store entry that existed before the operation is modified by it:
every pre-existing vertex and polygon object reads back unchanged. -/
def Frame {S : Type} (nv np : ℕ) (h h' : Heap S) : Prop :=
  (∀ i, i < nv → h'.verts.getD i default = h.verts.getD i default) ∧
    (∀ i, i < np → h'.polys.getD i default = h.polys.getD i default)

/-- Store invariant during an operation: the stores are at least as long
as the protected region, and every polygon object in the working region
(id at least `np`) references only working-region vertices (ids at least
`nv`). -/
def Ok {S : Type} (nv np : ℕ) (h : Heap S) : Prop :=
  nv ≤ h.verts.length ∧ np ≤ h.polys.length ∧
    ∀ pid, np ≤ pid → ∀ vid ∈ (h.poly pid).vertices, nv ≤ vid

mutual

/-- All polygon ids of a tree lie in the working region. -/
def TreeGE (np : ℕ) : NodeH → Prop
  | .mk _ fr bk ps => (∀ pid ∈ ps, np ≤ pid) ∧ TreeGEO np fr ∧ TreeGEO np bk

/-- `TreeGE` on an optional child (trivially true when absent). -/
def TreeGEO (np : ℕ) : Option NodeH → Prop
  | none => True
  | some f => TreeGE np f

end

/-- The operation, run to completion, left every pre-existing store
entry unchanged. -/
def opPreserves {S : Type} (h : Heap S) : Option (List PId × Heap S) → Prop
  | none => True
  | some rh => Frame h.verts.length h.polys.length h rh.2

section ConcreteGeometry

/-- Triangle in the plane `z = 0` with outward normal `+z`. -/
def triXY : Polygon ℕ :=
  Polygon.new ratSqrt
    [⟨⟨0, 0, 0⟩, ⟨0, 0, 1⟩⟩, ⟨⟨1, 0, 0⟩, ⟨0, 0, 1⟩⟩, ⟨⟨0, 1, 0⟩, ⟨0, 0, 1⟩⟩] none

/-- The plane `z = 0` oriented towards `+z` (the plane `triXY` derives). -/
def planeZ : Plane := ⟨⟨0, 0, 1⟩, 0⟩

/-- The BSP tree that `new Node([triXY])` produces: one node holding the
triangle, no children. -/
def nodeT : Node ℕ := .mk (some planeZ) none none [triXY]

/-- The plane `x = 0` oriented towards `+x` (from the repository's own
`plane.test.ts` fixtures). -/
def planeYZ : Plane := Plane.fromPoints ratSqrt ⟨0, 0, 0⟩ ⟨0, 1, 0⟩ ⟨0, 0, 1⟩

/-- Triangle entirely at `x = 1` (a `FRONT` polygon for `planeYZ`). -/
def triFront : Polygon ℕ :=
  Polygon.new ratSqrt
    [⟨⟨1, 0, 0⟩, ⟨1, 0, 0⟩⟩, ⟨⟨1, 1, 0⟩, ⟨1, 0, 0⟩⟩, ⟨⟨1, 0, 1⟩, ⟨1, 0, 0⟩⟩] none

/-- Square straddling `x = 0` (a `SPANNING` polygon for `planeYZ`). -/
def squareMid : Polygon ℕ :=
  Polygon.new ratSqrt
    [⟨⟨-1, 1, 0⟩, ⟨0, 0, 1⟩⟩, ⟨⟨-1, -1, 0⟩, ⟨0, 0, 1⟩⟩, ⟨⟨1, -1, 0⟩, ⟨0, 0, 1⟩⟩,
      ⟨⟨1, 1, 0⟩, ⟨0, 0, 1⟩⟩] none

/-- Square in the plane `y = 0` spanning `z = 0`, with its two
plane-crossing edges placed so that one of them is the wrap-around edge
from the last vertex back to the first. -/
def squareY0 : Polygon ℕ :=
  Polygon.new ratSqrt
    [⟨⟨0, 0, -1⟩, ⟨0, -1, 0⟩⟩, ⟨⟨1, 0, -1⟩, ⟨0, -1, 0⟩⟩, ⟨⟨1, 0, 1⟩, ⟨0, -1, 0⟩⟩,
      ⟨⟨0, 0, 1⟩, ⟨0, -1, 0⟩⟩] none

/-- A two-polygon solid whose own BSP build splits `squareY0` on
`squareMid`'s plane. -/
def soupA : CSG ℕ := ⟨[squareMid, squareY0]⟩

/-- A triangle far below `soupA` (at `z = -5`), used as the second
operand. -/
def farB : CSG ℕ :=
  ⟨[Polygon.new ratSqrt
      [⟨⟨0, 0, -5⟩, ⟨0, 0, 1⟩⟩, ⟨⟨1, 0, -5⟩, ⟨0, 0, 1⟩⟩, ⟨⟨0, 1, -5⟩, ⟨0, 0, 1⟩⟩] none]⟩

/-- The inversion of `nodeT`: flipped plane, flipped triangle. -/
def nodeTInv : Node ℕ := .mk (some planeZ.flip) none none [Polygon.flip triXY]

end ConcreteGeometry

section BasicLemmas

theorem Vector.negated_negated (v : Vector) : v.negated.negated = v := by
  cases v; simp [Vector.negated]

theorem Vertex.flip_flip_vertex (v : Vertex) : v.flip.flip = v := by
  cases v; simp [Vertex.flip, Vector.negated_negated]

theorem Plane.flip_flip_plane (p : Plane) : p.flip.flip = p := by
  cases p; simp [Plane.flip, Vector.negated_negated]

theorem Polygon.flip_flip_polygon {S : Type} (p : Polygon S) : p.flip.flip = p := by
  cases p with
  | mk vs sh pl =>
    simp [Polygon.flip, Plane.flip_flip_plane, List.map_reverse, List.map_map,
      Function.comp_def, Vertex.flip_flip_vertex]

end BasicLemmas

/-- C7: flipping a `Polygon` twice restores the original polygon exactly
(in exact arithmetic): the vertex list, every vertex normal, the shared
tag and the plane's normal and `w` all return to their original
values. -/
theorem polygon_double_flip {S : Type} (p : Polygon S) : p.flip.flip = p :=
  Polygon.flip_flip_polygon p

/-- C10: `Node.build` with an empty polygon list is a no-op: the node is
returned with plane, front child, back child and polygon list exactly as
they were (the source returns before adopting a plane or creating any
child). -/
theorem build_nil_noop {S : Type} (sq : ℚ → ℚ) (fuel : ℕ) (n : Node S) :
    Node.build sq fuel n [] = some n := by
  cases n; cases fuel <;> rfl

/-- C9: clipping a polygon list against a node whose plane is null (an
empty tree) returns the input polygons unchanged and in order — clipping
against an empty tree removes nothing. -/
theorem clipPolygons_empty_tree {S : Type} (sq : ℚ → ℚ) (n : Node S)
    (ps : List (Polygon S)) (h : n.plane = none) : n.clipPolygons sq ps = ps := by
  cases n with
  | mk pl fr bk ps0 =>
    cases pl with
    | none => rfl
    | some p => simp [Node.plane] at h

/-- Witness for C9 at a concrete input: the freshly constructed empty
node passes a one-triangle list through unchanged. -/
theorem clipPolygons_empty_tree_witness :
    (Node.empty : Node ℕ).plane = none ∧
      Node.clipPolygons ratSqrt (Node.empty : Node ℕ) [triXY] = [triXY] :=
  ⟨rfl, clipPolygons_empty_tree ratSqrt Node.empty [triXY] rfl⟩

section Classification

theorem Plane.vertexType_lt (pl : Plane) (v : Vertex) : Plane.vertexType pl v < 4 := by
  simp only [Plane.vertexType]
  split_ifs <;> simp [Plane.BACK, Plane.FRONT, Plane.COPLANAR]

theorem Plane.EPSILON_pos : (0 : ℚ) < Plane.EPSILON := by norm_num [Plane.EPSILON]

theorem lor_small (a b : ℕ) (ha : a < 4) (hb : b < 4) :
    a ||| b < 4 ∧ (a ||| b = 0 ↔ a = 0 ∧ b = 0) := by
  interval_cases a <;> interval_cases b <;> simp

theorem foldl_lor_eq_zero (l : List ℕ) : ∀ a, a < 4 → (∀ x ∈ l, x < 4) →
    (l.foldl (· ||| ·) a = 0 ↔ a = 0 ∧ ∀ x ∈ l, x = 0) := by
  induction l with
  | nil => intro a _ _; simp
  | cons x xs ih =>
    intro a ha hx
    have hx4 : x < 4 := hx x (by simp)
    have h1 := lor_small a x ha hx4
    have := ih (a ||| x) h1.1 (fun y hy => hx y (by simp [hy]))
    simp only [List.foldl_cons, this, h1.2]
    constructor
    · rintro ⟨⟨rfl, rfl⟩, h⟩
      exact ⟨rfl, by simpa using h⟩
    · rintro ⟨rfl, h⟩
      exact ⟨⟨rfl, h x (by simp)⟩, fun y hy => h y (by simp [hy])⟩

theorem polygonTypeOf_coplanar_iff {S : Type} (pl : Plane) (p : Polygon S) :
    Plane.polygonTypeOf pl p = Plane.COPLANAR ↔
      ∀ v ∈ p.vertices, Plane.vertexType pl v = Plane.COPLANAR := by
  unfold Plane.polygonTypeOf Plane.vertexTypes Plane.COPLANAR
  rw [foldl_lor_eq_zero _ 0 (by norm_num)
    (by intro x hx; simp only [List.mem_map] at hx; obtain ⟨v, _, rfl⟩ := hx
        exact Plane.vertexType_lt pl v)]
  simp

theorem splitPolygon_coplanar {S : Type} (sq : ℚ → ℚ) (pl : Plane) (p : Polygon S)
    (h : Plane.polygonTypeOf pl p = Plane.COPLANAR) :
    pl.splitPolygon sq p =
      if pl.normal.dot p.plane.normal > 0 then ⟨[p], [], [], []⟩ else ⟨[], [p], [], []⟩ := by
  unfold Plane.splitPolygon
  simp only [h]
  split <;> simp_all [Plane.COPLANAR]

theorem splitPolygon_front {S : Type} (sq : ℚ → ℚ) (pl : Plane) (p : Polygon S)
    (h : Plane.polygonTypeOf pl p = Plane.FRONT) :
    pl.splitPolygon sq p = ⟨[], [], [p], []⟩ := by
  unfold Plane.splitPolygon
  rw [h]
  rfl

theorem splitPolygon_back {S : Type} (sq : ℚ → ℚ) (pl : Plane) (p : Polygon S)
    (h : Plane.polygonTypeOf pl p = Plane.BACK) :
    pl.splitPolygon sq p = ⟨[], [], [], [p]⟩ := by
  unfold Plane.splitPolygon
  rw [h]
  rfl

theorem splitPolygon_spanning {S : Type} (sq : ℚ → ℚ) (pl : Plane) (p : Polygon S)
    (h : Plane.polygonTypeOf pl p = Plane.SPANNING) :
    pl.splitPolygon sq p =
      ⟨[], [],
        if (Plane.spanChains pl p).1.length ≥ 3
          then [Polygon.new sq (Plane.spanChains pl p).1 p.shared] else [],
        if (Plane.spanChains pl p).2.length ≥ 3
          then [Polygon.new sq (Plane.spanChains pl p).2 p.shared] else []⟩ := by
  unfold Plane.splitPolygon
  rw [h]
  rfl

end Classification

/-- C4: `splitPolygon` classifies each vertex `v` by the signed distance
`t = dot(normal, v.pos) - w`: `BACK` iff `t < -EPSILON`, `FRONT` iff
`t > EPSILON`, `COPLANAR` otherwise; the polygon's overall type
(`polygonTypeOf`, the bitwise OR of the per-vertex codes) is `COPLANAR`
exactly when every vertex is coplanar, and a non-spanning polygon is
appended whole to exactly one output list: a wholly coplanar polygon to
`coplanarFront` exactly when `dot(normal, polygon.plane.normal) > 0` and
otherwise to `coplanarBack`, a `FRONT` polygon to `front`, a `BACK`
polygon to `back`. -/
theorem splitPolygon_classification {S : Type} (sq : ℚ → ℚ) (pl : Plane) (p : Polygon S) :
    (∀ v ∈ p.vertices,
      (Plane.vertexType pl v = Plane.BACK ↔
        pl.normal.dot v.pos - pl.w < -Plane.EPSILON) ∧
      (Plane.vertexType pl v = Plane.FRONT ↔
        Plane.EPSILON < pl.normal.dot v.pos - pl.w) ∧
      (Plane.vertexType pl v = Plane.COPLANAR ↔
        -Plane.EPSILON ≤ pl.normal.dot v.pos - pl.w ∧
          pl.normal.dot v.pos - pl.w ≤ Plane.EPSILON)) ∧
    (Plane.polygonTypeOf pl p = Plane.COPLANAR ↔
      ∀ v ∈ p.vertices, Plane.vertexType pl v = Plane.COPLANAR) ∧
    (Plane.polygonTypeOf pl p = Plane.COPLANAR →
      pl.splitPolygon sq p =
        if pl.normal.dot p.plane.normal > 0 then ⟨[p], [], [], []⟩ else ⟨[], [p], [], []⟩) ∧
    (Plane.polygonTypeOf pl p = Plane.FRONT →
      pl.splitPolygon sq p = ⟨[], [], [p], []⟩) ∧
    (Plane.polygonTypeOf pl p = Plane.BACK →
      pl.splitPolygon sq p = ⟨[], [], [], [p]⟩) := by
  refine ⟨fun v _ => ?_, polygonTypeOf_coplanar_iff pl p, fun h => ?_, fun h => ?_, fun h => ?_⟩
  · simp only [Plane.vertexType]
    split_ifs with h1 h2
    · refine ⟨⟨fun _ => h1, fun _ => rfl⟩, ⟨fun hh => ?_, fun hh => ?_⟩,
        ⟨fun hh => ?_, fun hh => ?_⟩⟩
      · exact absurd hh (by decide)
      · exfalso; have hε := Plane.EPSILON_pos; linarith
      · exact absurd hh (by decide)
      · exfalso; obtain ⟨hl, _⟩ := hh; linarith
    · refine ⟨⟨fun hh => ?_, fun hh => ?_⟩, ⟨fun _ => h2, fun _ => rfl⟩,
        ⟨fun hh => ?_, fun hh => ?_⟩⟩
      · exact absurd hh (by decide)
      · exfalso; exact h1 hh
      · exact absurd hh (by decide)
      · exfalso; obtain ⟨_, hr⟩ := hh; linarith
    · refine ⟨⟨fun hh => ?_, fun hh => ?_⟩, ⟨fun hh => ?_, fun hh => ?_⟩,
        ⟨fun _ => ⟨by linarith, by linarith⟩, fun _ => rfl⟩⟩
      · exact absurd hh (by decide)
      · exfalso; exact h1 hh
      · exact absurd hh (by decide)
      · exfalso; exact h2 hh
  · exact splitPolygon_coplanar sq pl p h
  · exact splitPolygon_front sq pl p h
  · exact splitPolygon_back sq pl p h

/-- C5: for a spanning polygon, each of the two output vertex chains
becomes a new `Polygon` appended to the front (respectively back) output
list exactly when it has accumulated at least 3 vertices — a shorter
chain is silently dropped, adding no entry to any output list and
raising no error — and every emitted fragment carries the original
polygon's `shared` tag unchanged. -/
theorem splitPolygon_spanning_fragments {S : Type} (sq : ℚ → ℚ) (pl : Plane) (p : Polygon S)
    (h : Plane.polygonTypeOf pl p = Plane.SPANNING) :
    (pl.splitPolygon sq p).coplanarFront = [] ∧
    (pl.splitPolygon sq p).coplanarBack = [] ∧
    (pl.splitPolygon sq p).front =
      (if (Plane.spanChains pl p).1.length ≥ 3
        then [Polygon.new sq (Plane.spanChains pl p).1 p.shared] else []) ∧
    (pl.splitPolygon sq p).back =
      (if (Plane.spanChains pl p).2.length ≥ 3
        then [Polygon.new sq (Plane.spanChains pl p).2 p.shared] else []) ∧
    (∀ q ∈ (pl.splitPolygon sq p).front, q.shared = p.shared) ∧
    (∀ q ∈ (pl.splitPolygon sq p).back, q.shared = p.shared) := by
  rw [splitPolygon_spanning sq pl p h]
  refine ⟨rfl, rfl, rfl, rfl, ?_, ?_⟩ <;>
    · intro q hq
      split at hq <;> simp_all [Polygon.new]

mutual

theorem clipPolygons_nil {S : Type} (sq : ℚ → ℚ) :
    ∀ (n : Node S), Node.clipPolygons sq n [] = []
  | .mk none _ _ _ => rfl
  | .mk (some pl) fr bk ps => by
    unfold Node.clipPolygons
    simp only [List.foldl_nil]
    rw [clipPolygonsO_nil sq fr]
    cases bk with
    | none => rfl
    | some b => exact clipPolygons_nil sq b

theorem clipPolygonsO_nil {S : Type} (sq : ℚ → ℚ) :
    ∀ (o : Option (Node S)), Node.clipPolygonsO sq o [] = []
  | none => rfl
  | some n => clipPolygons_nil sq n

end

theorem map_flip_flip {S : Type} :
    ∀ (l : List (Polygon S)), (l.map Polygon.flip).map Polygon.flip = l
  | [] => rfl
  | p :: l => by simp [Polygon.flip_flip_polygon, map_flip_flip l]

mutual

theorem invert_invert {S : Type} :
    ∀ (n n' : Node S), Node.invert n = some n' → Node.invert n' = some n
  | .mk pl fr bk ps, n', h => by
    cases pl with
    | none => simp [Node.invert] at h
    | some p =>
      unfold Node.invert at h
      rw [Option.some_bind, Option.bind_eq_some] at h
      obtain ⟨fr', hfr, h⟩ := h
      rw [Option.bind_eq_some] at h
      obtain ⟨bk', hbk, h⟩ := h
      rw [Option.some_inj] at h
      subst h
      unfold Node.invert
      rw [Option.some_bind, invertO_invert bk bk' hbk, Option.some_bind,
        invertO_invert fr fr' hfr, Option.some_bind, Plane.flip_flip_plane, map_flip_flip]

theorem invertO_invert {S : Type} :
    ∀ (o o' : Option (Node S)), Node.invertO o = some o' → Node.invertO o' = some o
  | none, o', h => by
    simp only [Node.invertO, Option.some_inj] at h
    subst h
    rfl
  | some n, o', h => by
    simp only [Node.invertO, Option.map_eq_some'] at h
    obtain ⟨n', hn, rfl⟩ := h
    simp only [Node.invertO, invert_invert n n' hn, Option.map_some']

end

mutual

theorem invert_isSome {S : Type} :
    ∀ (n : Node S), Node.planesOk n = true → (Node.invert n).isSome = true
  | .mk pl fr bk ps, h => by
    unfold Node.planesOk at h
    rw [Bool.and_eq_true, Bool.and_eq_true] at h
    obtain ⟨⟨hpl, hfr⟩, hbk⟩ := h
    cases pl with
    | none => simp at hpl
    | some p =>
      unfold Node.invert
      rw [Option.some_bind]
      have h1 := invertO_isSome fr hfr
      have h2 := invertO_isSome bk hbk
      rw [Option.isSome_iff_exists] at h1 h2
      obtain ⟨fr', hfr'⟩ := h1
      obtain ⟨bk', hbk'⟩ := h2
      rw [hfr', Option.some_bind, hbk', Option.some_bind]
      rfl

theorem invertO_isSome {S : Type} :
    ∀ (o : Option (Node S)), Node.planesOkO o = true → (Node.invertO o).isSome = true
  | none, _ => rfl
  | some n, h => by
    have := invert_isSome n h
    rw [Option.isSome_iff_exists] at this
    obtain ⟨n', hn⟩ := this
    simp [Node.invertO, hn]

end

theorem build_planes {S : Type} (sq : ℚ → ℚ) :
    ∀ (fuel : ℕ) (n : Node S) (ps : List (Polygon S)) (n' : Node S),
      Node.planesOkO n.front = true → Node.planesOkO n.back = true →
      Node.build sq fuel n ps = some n' →
      Node.planesOkO n'.front = true ∧ Node.planesOkO n'.back = true ∧
        (ps ≠ [] → n'.plane.isSome = true) ∧ (ps = [] → n' = n) := by
  intro fuel
  induction fuel with
  | zero =>
    intro n ps n' hf hb h
    cases ps with
    | nil =>
      cases n
      rw [build_nil_noop, Option.some_inj] at h
      subst h
      exact ⟨hf, hb, by simp, fun _ => rfl⟩
    | cons p ps => cases n; exact absurd h (by simp [Node.build])
  | succ fuel ih =>
    intro n ps n' hf hb h
    cases ps with
    | nil =>
      cases n
      rw [build_nil_noop, Option.some_inj] at h
      subst h
      exact ⟨hf, hb, by simp, fun _ => rfl⟩
    | cons p ps =>
      cases n with
      | mk pl0 fr0 bk0 ps0 =>
        unfold Node.build at h
        rw [Option.bind_eq_some] at h
        obtain ⟨fr', hfr, h⟩ := h
        rw [Option.bind_eq_some] at h
        obtain ⟨bk', hbk, h⟩ := h
        rw [Option.some_inj] at h
        subst h
        refine ⟨?_, ?_, fun _ => rfl, by simp⟩
        · split at hfr
          · rw [Option.some_inj] at hfr; subst hfr; exact hf
          next hne =>
            rw [Option.map_eq_some'] at hfr
            obtain ⟨c', hc, rfl⟩ := hfr
            have hcf : Node.planesOkO (Option.getD fr0 Node.empty).front = true ∧
                Node.planesOkO (Option.getD fr0 Node.empty).back = true := by
              cases fr0 with
              | none => exact ⟨rfl, rfl⟩
              | some f =>
                cases f with
                | mk plf frf bkf psf =>
                  have : Node.planesOk (.mk plf frf bkf psf) = true := hf
                  unfold Node.planesOk at this
                  rw [Bool.and_eq_true, Bool.and_eq_true] at this
                  exact ⟨this.1.2, this.2⟩
            obtain ⟨h1, h2, h3, _⟩ := ih _ _ _ hcf.1 hcf.2 hc
            show Node.planesOk c' = true
            cases c' with
            | mk plc frc bkc psc =>
              unfold Node.planesOk
              rw [Bool.and_eq_true, Bool.and_eq_true]
              exact ⟨⟨h3 (by simpa using hne), h1⟩, h2⟩
        · split at hbk
          · rw [Option.some_inj] at hbk; subst hbk; exact hb
          next hne =>
            rw [Option.map_eq_some'] at hbk
            obtain ⟨c', hc, rfl⟩ := hbk
            have hcf : Node.planesOkO (Option.getD bk0 Node.empty).front = true ∧
                Node.planesOkO (Option.getD bk0 Node.empty).back = true := by
              cases bk0 with
              | none => exact ⟨rfl, rfl⟩
              | some f =>
                cases f with
                | mk plf frf bkf psf =>
                  have : Node.planesOk (.mk plf frf bkf psf) = true := hb
                  unfold Node.planesOk at this
                  rw [Bool.and_eq_true, Bool.and_eq_true] at this
                  exact ⟨this.1.2, this.2⟩
            obtain ⟨h1, h2, h3, _⟩ := ih _ _ _ hcf.1 hcf.2 hc
            show Node.planesOk c' = true
            cases c' with
            | mk plc frc bkc psc =>
              unfold Node.planesOk
              rw [Bool.and_eq_true, Bool.and_eq_true]
              exact ⟨⟨h3 (by simpa using hne), h1⟩, h2⟩

/-- C8: every node of a tree produced by `Node.build` on a non-empty
polygon list carries a non-null plane, so `Node.invert` — which
unconditionally dereferences `this.plane!` — succeeds on such trees;
on a freshly constructed empty `Node` (null plane) that same plane
access fails (modelled by `none`). -/
theorem build_planes_invert_safe {S : Type} :
    (∀ (sq : ℚ → ℚ) (fuel : ℕ) (ps : List (Polygon S)) (t : Node S), ps ≠ [] →
        Node.new sq fuel ps = some t →
        Node.planesOk t = true ∧ (Node.invert t).isSome = true) ∧
      Node.invert (Node.empty : Node S) = none := by
  constructor
  · intro sq fuel ps t hne hb
    obtain ⟨h1, h2, h3, _⟩ := build_planes sq fuel Node.empty ps t rfl rfl hb
    have hok : Node.planesOk t = true := by
      cases t with
      | mk pl fr bk ps0 =>
        unfold Node.planesOk
        rw [Bool.and_eq_true, Bool.and_eq_true]
        exact ⟨⟨h3 hne, h1⟩, h2⟩
    exact ⟨hok, invert_isSome t hok⟩
  · rfl

/-- C6: for a BSP tree built from a non-empty polygon list, applying
`Node.invert` twice reproduces the original flattened polygon set as an
unordered multiset of polygons compared by vertex positions. -/
theorem invert_involution_positions {S : Type} (sq : ℚ → ℚ) (fuel : ℕ)
    (ps : List (Polygon S)) (t t' t'' : Node S) (hne : ps ≠ [])
    (hb : Node.new sq fuel ps = some t) (h1 : Node.invert t = some t')
    (h2 : Node.invert t' = some t'') :
    nodePositionMultiset t'' = nodePositionMultiset t := by
  have h3 := invert_invert t t' h1
  rw [h3, Option.some_inj] at h2
  rw [h2]

/-- C1 (amended): `clipPolygons` routes coplanar-front pushes to the
same local list as front pushes and coplanar-back pushes to the same
local list as back pushes; consequently a wholly coplanar polygon whose
plane normal has positive dot product with the node plane's normal is
treated as in front (surviving untouched when there is no front child),
while one with non-positive dot product is routed to the back list and
is discarded when the node has no back child. -/
theorem clipPolygons_coplanar_routing {S : Type} (sq : ℚ → ℚ) (n : Node S) (pl : Plane)
    (q : Polygon S) (hpl : n.plane = some pl)
    (hcop : Plane.polygonTypeOf pl q = Plane.COPLANAR) :
    (pl.normal.dot q.plane.normal > 0 → n.front = none →
      Node.clipPolygons sq n [q] = [q]) ∧
    (¬ pl.normal.dot q.plane.normal > 0 → n.back = none →
      Node.clipPolygons sq n [q] = []) := by
  cases n with
  | mk pl0 fr bk ps =>
    have hpl0 : pl0 = some pl := hpl
    subst hpl0
    constructor
    · intro hdot hfr
      have hfr0 : fr = none := hfr
      subst hfr0
      unfold Node.clipPolygons
      simp only [List.foldl_cons, List.foldl_nil]
      rw [splitPolygon_coplanar sq pl q hcop, if_pos hdot]
      cases bk with
      | none => simp [Node.clipPolygonsO]
      | some b =>
        simp only [Node.clipPolygonsO, List.nil_append, List.append_nil]
        rw [clipPolygons_nil sq b, List.append_nil]
    · intro hdot hbk
      have hbk0 : bk = none := hbk
      subst hbk0
      unfold Node.clipPolygons
      simp only [List.foldl_cons, List.foldl_nil]
      rw [splitPolygon_coplanar sq pl q hcop, if_neg hdot]
      cases fr with
      | none => simp [Node.clipPolygonsO]
      | some f =>
        simp only [Node.clipPolygonsO, List.nil_append, List.append_nil]
        rw [clipPolygons_nil sq f]

/-- C3 (amended): `subtract` performs `a.invert()` first, then exactly
the same clip-and-build sequence as `union` (the shared skeleton
`a.clipTo(b); b.clipTo(a); b.invert(); b.clipTo(a); b.invert();
a.build(b.allPolygons())`), then `a.invert()` again before flattening —
the complement trick A−B = ¬(¬A ∪ B) at the level of the operation
sequence. -/
theorem subtract_inverted_union_sequence {S : Type} (sq : ℚ → ℚ) (fuel : ℕ) (A B : CSG S) :
    CSG.union sq fuel A B = (do
      let a0 ← Node.new sq fuel (A.clone sq).polygons
      let b0 ← Node.new sq fuel (B.clone sq).polygons
      let a2 ← unionSkeleton sq fuel a0 b0
      pure (CSG.fromPolygons a2.allPolygons)) ∧
    CSG.subtract sq fuel A B = (do
      let a0 ← Node.new sq fuel (A.clone sq).polygons
      let b0 ← Node.new sq fuel (B.clone sq).polygons
      let a1 ← a0.invert
      let a2 ← unionSkeleton sq fuel a1 b0
      let a3 ← a2.invert
      pure (CSG.fromPolygons a3.allPolygons)) := by
  constructor
  · unfold CSG.union unionSkeleton
    cases Node.new sq fuel (A.clone sq).polygons with
    | none => rfl
    | some a0 =>
      cases Node.new sq fuel (B.clone sq).polygons with
      | none => rfl
      | some b0 =>
        show (Node.invert _).bind _ = ((Node.invert _).bind _).bind _
        rw [Option.bind_assoc]
        cases Node.invert (Node.clipTo sq b0 (Node.clipTo sq a0 b0)) with
        | none => rfl
        | some b2 =>
          show (Node.invert _).bind _ = ((Node.invert _).bind _).bind _
          rw [Option.bind_assoc]
          rfl
  · unfold CSG.subtract unionSkeleton
    cases Node.new sq fuel (A.clone sq).polygons with
    | none => rfl
    | some a0 =>
      cases Node.new sq fuel (B.clone sq).polygons with
      | none => rfl
      | some b0 =>
        show (Node.invert a0).bind _ = (Node.invert a0).bind _
        cases Node.invert a0 with
        | none => rfl
        | some a1 =>
          show (Node.invert _).bind _ = ((Node.invert _).bind _).bind _
          rw [Option.bind_assoc]
          cases Node.invert (Node.clipTo sq b0 (Node.clipTo sq a1 b0)) with
          | none => rfl
          | some b2 =>
            show (Node.invert _).bind _ = ((Node.invert _).bind _).bind _
            rw [Option.bind_assoc]
            rfl

section FrameLemmas

theorem frame_rfl {S : Type} (nv np : ℕ) (h : Heap S) : Frame nv np h h :=
  ⟨fun _ _ => Eq.refl _, fun _ _ => Eq.refl _⟩

theorem frame_trans {S : Type} {nv np : ℕ} {h1 h2 h3 : Heap S}
    (a : Frame nv np h1 h2) (b : Frame nv np h2 h3) : Frame nv np h1 h3 :=
  ⟨fun i hi => (b.1 i hi).trans (a.1 i hi), fun i hi => (b.2 i hi).trans (a.2 i hi)⟩

theorem pushVert_frame {S : Type} {nv np : ℕ} {h : Heap S} (hOk : Ok nv np h) (v : Vertex) :
    Ok nv np (h.pushVert v).2 ∧ Frame nv np h (h.pushVert v).2 ∧ nv ≤ (h.pushVert v).1 := by
  obtain ⟨h1, h2, h3⟩ := hOk
  refine ⟨⟨?_, h2, fun pid hp vid hv => h3 pid hp vid hv⟩, ⟨?_, fun _ _ => Eq.refl _⟩, h1⟩
  · simp only [Heap.pushVert, List.length_append, List.length_cons, List.length_nil]
    omega
  · intro i hi
    exact List.getD_append _ _ _ _ (lt_of_lt_of_le hi h1)

theorem pushPoly_frame {S : Type} {nv np : ℕ} {h : Heap S} (hOk : Ok nv np h) (p : PolyVal S)
    (hp : ∀ vid ∈ p.vertices, nv ≤ vid) :
    Ok nv np (h.pushPoly p).2 ∧ Frame nv np h (h.pushPoly p).2 ∧ np ≤ (h.pushPoly p).1 := by
  obtain ⟨h1, h2, h3⟩ := hOk
  refine ⟨⟨h1, ?_, ?_⟩, ⟨fun _ _ => Eq.refl _, ?_⟩, h2⟩
  · simp only [Heap.pushPoly, List.length_append, List.length_cons, List.length_nil]
    omega
  · intro pid hpid vid hv
    rcases Nat.lt_or_ge pid h.polys.length with hlt | hge
    · have he : (h.pushPoly p).2.poly pid = h.poly pid := by
        simp only [Heap.pushPoly, Heap.poly]
        exact List.getD_append _ _ _ _ hlt
      rw [he] at hv
      exact h3 pid hpid vid hv
    · rcases Nat.lt_or_ge pid (h.polys.length + 1) with hlt2 | hge2
      · have hpe : pid = h.polys.length := Nat.le_antisymm (Nat.lt_succ_iff.mp hlt2) hge
        have he : (h.pushPoly p).2.poly pid = p := by
          subst hpe
          simp [Heap.pushPoly, Heap.poly, List.getD_eq_getElem?_getD]
        rw [he] at hv
        exact hp vid hv
      · have he : (h.pushPoly p).2.poly pid = default := by
          simp only [Heap.pushPoly, Heap.poly]
          refine List.getD_eq_default _ _ ?_
          simp only [List.length_append, List.length_cons, List.length_nil]
          omega
        rw [he] at hv
        simp [default] at hv
  · intro i hi
    exact List.getD_append _ _ _ _ (lt_of_lt_of_le hi h2)

theorem setVert_frame {S : Type} {nv np : ℕ} {h : Heap S} (hOk : Ok nv np h) {i : VId}
    (hi : nv ≤ i) (v : Vertex) :
    Ok nv np (h.setVert i v) ∧ Frame nv np h (h.setVert i v) := by
  obtain ⟨h1, h2, h3⟩ := hOk
  refine ⟨⟨?_, h2, fun pid hp vid hv => h3 pid hp vid hv⟩, ⟨?_, fun _ _ => Eq.refl _⟩⟩
  · simpa only [Heap.setVert, List.length_set] using h1
  · intro j hj
    have hne : i ≠ j := Nat.ne_of_gt (lt_of_lt_of_le hj hi)
    simp only [Heap.setVert]
    simp [List.getD_eq_getElem?_getD, List.getElem?_set_ne hne]

theorem setPoly_frame {S : Type} {nv np : ℕ} {h : Heap S} (hOk : Ok nv np h) {i : PId}
    (hi : np ≤ i) {p : PolyVal S} (hp : ∀ vid ∈ p.vertices, nv ≤ vid) :
    Ok nv np (h.setPoly i p) ∧ Frame nv np h (h.setPoly i p) := by
  obtain ⟨h1, h2, h3⟩ := hOk
  refine ⟨⟨h1, ?_, ?_⟩, ⟨fun _ _ => Eq.refl _, ?_⟩⟩
  · simpa only [Heap.setPoly, List.length_set] using h2
  · intro pid hpid vid hv
    rcases eq_or_ne i pid with hpe | hne
    · subst hpe
      rcases Nat.lt_or_ge i h.polys.length with hlt | hge
      · have he : (h.setPoly i p).poly i = p := by
          simp only [Heap.setPoly, Heap.poly]
          simp [List.getD_eq_getElem?_getD, List.getElem?_set_self, hlt]
        rw [he] at hv
        exact hp vid hv
      · have he : (h.setPoly i p).poly i = h.poly i := by
          simp only [Heap.setPoly, Heap.poly]
          rw [List.getD_eq_default _ _ (by simpa only [List.length_set] using hge),
            List.getD_eq_default _ _ hge]
        rw [he] at hv
        exact h3 i hpid vid hv
    · have he : (h.setPoly i p).poly pid = h.poly pid := by
        simp only [Heap.setPoly, Heap.poly]
        simp [List.getD_eq_getElem?_getD, List.getElem?_set_ne hne]
      rw [he] at hv
      exact h3 pid hpid vid hv
  · intro j hj
    have hne : i ≠ j := Nat.ne_of_gt (lt_of_lt_of_le hj hi)
    simp only [Heap.setPoly]
    simp [List.getD_eq_getElem?_getD, List.getElem?_set_ne hne]

theorem vertexFlipH_frame {S : Type} {nv np : ℕ} {h : Heap S} (hOk : Ok nv np h) {i : VId}
    (hi : nv ≤ i) : Ok nv np (vertexFlipH h i) ∧ Frame nv np h (vertexFlipH h i) :=
  setVert_frame hOk hi _

theorem vertexCloneH_frame {S : Type} {nv np : ℕ} {h : Heap S} (hOk : Ok nv np h) (i : VId) :
    Ok nv np (vertexCloneH h i).2 ∧ Frame nv np h (vertexCloneH h i).2 ∧
      nv ≤ (vertexCloneH h i).1 :=
  pushVert_frame hOk _

theorem vertexInterpolateH_frame {S : Type} {nv np : ℕ} {h : Heap S} (hOk : Ok nv np h)
    (i j : VId) (t : ℚ) :
    Ok nv np (vertexInterpolateH h i j t).2 ∧ Frame nv np h (vertexInterpolateH h i j t).2 ∧
      nv ≤ (vertexInterpolateH h i j t).1 :=
  pushVert_frame hOk _

theorem polygonNewH_frame {S : Type} {nv np : ℕ} {h : Heap S} (hOk : Ok nv np h) (sq : ℚ → ℚ)
    {vs : List VId} (hvs : ∀ vid ∈ vs, nv ≤ vid) (shared : Option S) :
    Ok nv np (polygonNewH sq h vs shared).2 ∧ Frame nv np h (polygonNewH sq h vs shared).2 ∧
      np ≤ (polygonNewH sq h vs shared).1 :=
  pushPoly_frame hOk _ (by simpa using hvs)

theorem cloneVertsFold_frame {S : Type} {nv np : ℕ} (l : List VId) :
    ∀ (st : List VId × Heap S), Ok nv np st.2 → (∀ y ∈ st.1, nv ≤ y) →
      Ok nv np (l.foldl (fun (acc : List VId × Heap S) vid =>
          let n := vertexCloneH acc.2 vid
          (acc.1 ++ [n.1], n.2)) st).2 ∧
        Frame nv np st.2 (l.foldl (fun (acc : List VId × Heap S) vid =>
          let n := vertexCloneH acc.2 vid
          (acc.1 ++ [n.1], n.2)) st).2 ∧
        ∀ y ∈ (l.foldl (fun (acc : List VId × Heap S) vid =>
          let n := vertexCloneH acc.2 vid
          (acc.1 ++ [n.1], n.2)) st).1, nv ≤ y := by
  induction l with
  | nil => intro st hOk hys; exact ⟨hOk, frame_rfl nv np st.2, hys⟩
  | cons x xs ih =>
    intro st hOk hys
    obtain ⟨o1, f1, g1⟩ := vertexCloneH_frame hOk x
    have hys' : ∀ y ∈ st.1 ++ [(vertexCloneH st.2 x).1], nv ≤ y := by
      intro y hy
      rcases List.mem_append.mp hy with hy | hy
      · exact hys y hy
      · simp at hy; subst hy; exact g1
    obtain ⟨o2, f2, g2⟩ :=
      ih (st.1 ++ [(vertexCloneH st.2 x).1], (vertexCloneH st.2 x).2) o1 hys'
    exact ⟨o2, frame_trans f1 f2, g2⟩

theorem polygonCloneH_frame {S : Type} {nv np : ℕ} {h : Heap S} (hOk : Ok nv np h)
    (sq : ℚ → ℚ) (pid : PId) :
    Ok nv np (polygonCloneH sq h pid).2 ∧ Frame nv np h (polygonCloneH sq h pid).2 ∧
      np ≤ (polygonCloneH sq h pid).1 := by
  unfold polygonCloneH
  obtain ⟨o1, f1, g1⟩ := cloneVertsFold_frame (h.poly pid).vertices ([], h) hOk (by simp)
  obtain ⟨o2, f2, g2⟩ := polygonNewH_frame o1 sq g1 (h.poly pid).shared
  exact ⟨o2, frame_trans f1 f2, g2⟩

theorem csgCloneFold_frame {S : Type} {nv np : ℕ} (sq : ℚ → ℚ) (ps : List PId) :
    ∀ (st : List PId × Heap S), Ok nv np st.2 → (∀ y ∈ st.1, np ≤ y) →
      Ok nv np (ps.foldl (fun (acc : List PId × Heap S) pid =>
          let n := polygonCloneH sq acc.2 pid
          (acc.1 ++ [n.1], n.2)) st).2 ∧
        Frame nv np st.2 (ps.foldl (fun (acc : List PId × Heap S) pid =>
          let n := polygonCloneH sq acc.2 pid
          (acc.1 ++ [n.1], n.2)) st).2 ∧
        ∀ y ∈ (ps.foldl (fun (acc : List PId × Heap S) pid =>
          let n := polygonCloneH sq acc.2 pid
          (acc.1 ++ [n.1], n.2)) st).1, np ≤ y := by
  induction ps with
  | nil => intro st hOk hys; exact ⟨hOk, frame_rfl nv np st.2, hys⟩
  | cons x xs ih =>
    intro st hOk hys
    obtain ⟨o1, f1, g1⟩ := polygonCloneH_frame hOk sq x
    have hys' : ∀ y ∈ st.1 ++ [(polygonCloneH sq st.2 x).1], np ≤ y := by
      intro y hy
      rcases List.mem_append.mp hy with hy | hy
      · exact hys y hy
      · simp at hy; subst hy; exact g1
    obtain ⟨o2, f2, g2⟩ :=
      ih (st.1 ++ [(polygonCloneH sq st.2 x).1], (polygonCloneH sq st.2 x).2) o1 hys'
    exact ⟨o2, frame_trans f1 f2, g2⟩

theorem csgCloneH_frame {S : Type} {nv np : ℕ} {h : Heap S} (hOk : Ok nv np h) (sq : ℚ → ℚ)
    (ps : List PId) :
    Ok nv np (csgCloneH sq h ps).2 ∧ Frame nv np h (csgCloneH sq h ps).2 ∧
      ∀ y ∈ (csgCloneH sq h ps).1, np ≤ y := by
  unfold csgCloneH
  exact csgCloneFold_frame sq ps ([], h) hOk (by simp)

theorem flipFold_frame {S : Type} {nv np : ℕ} (l : List VId) :
    ∀ (h : Heap S), Ok nv np h → (∀ vid ∈ l, nv ≤ vid) →
      Ok nv np (l.foldl vertexFlipH h) ∧ Frame nv np h (l.foldl vertexFlipH h) := by
  induction l with
  | nil => intro h hOk _; exact ⟨hOk, frame_rfl nv np h⟩
  | cons x xs ih =>
    intro h hOk hl
    obtain ⟨o2, f2⟩ := vertexFlipH_frame hOk (hl x (by simp))
    obtain ⟨o3, f3⟩ := ih _ o2 (fun v hv => hl v (by simp [hv]))
    exact ⟨o3, frame_trans f2 f3⟩

theorem polygonFlipH_frame {S : Type} {nv np : ℕ} {h : Heap S} (hOk : Ok nv np h) {pid : PId}
    (hpid : np ≤ pid) : Ok nv np (polygonFlipH h pid) ∧ Frame nv np h (polygonFlipH h pid) := by
  unfold polygonFlipH
  have hverts : ∀ vid ∈ (h.poly pid).vertices, nv ≤ vid := hOk.2.2 pid hpid
  obtain ⟨o1, f1⟩ := setPoly_frame hOk hpid
    (p := ⟨(h.poly pid).vertices.reverse, (h.poly pid).shared, (h.poly pid).plane.flip⟩)
    (by simpa using hverts)
  obtain ⟨o2, f2⟩ := flipFold_frame (h.poly pid).vertices _ o1 hverts
  exact ⟨o2, frame_trans f1 f2⟩

theorem polyFlipFold_frame {S : Type} {nv np : ℕ} (l : List PId) :
    ∀ (h : Heap S), Ok nv np h → (∀ pid ∈ l, np ≤ pid) →
      Ok nv np (l.foldl polygonFlipH h) ∧ Frame nv np h (l.foldl polygonFlipH h) := by
  induction l with
  | nil => intro h hOk _; exact ⟨hOk, frame_rfl nv np h⟩
  | cons x xs ih =>
    intro h hOk hl
    obtain ⟨o2, f2⟩ := polygonFlipH_frame hOk (hl x (by simp))
    obtain ⟨o3, f3⟩ := ih _ o2 (fun v hv => hl v (by simp [hv]))
    exact ⟨o3, frame_trans f2 f3⟩

theorem getD_mem {α : Type} (l : List α) (i : ℕ) (d : α) (h : i < l.length) :
    l.getD i d ∈ l := by
  rw [List.getD_eq_getElem?_getD, List.getElem?_eq_getElem h]
  exact List.getElem_mem h

theorem spanStepH_frame {S : Type} {nv np : ℕ} (pl : Plane) (val : PolyVal S)
    (types : List ℕ) (hval : ∀ vid ∈ val.vertices, nv ≤ vid) (i : ℕ)
    (hi : i < val.vertices.length) (st : (List VId × List VId) × Heap S)
    (hOk : Ok nv np st.2) (hf : ∀ y ∈ st.1.1, nv ≤ y) (hb : ∀ y ∈ st.1.2, nv ≤ y) :
    Ok nv np (spanStepH pl val types st i).2 ∧
      Frame nv np st.2 (spanStepH pl val types st i).2 ∧
      (∀ y ∈ (spanStepH pl val types st i).1.1, nv ≤ y) ∧
      (∀ y ∈ (spanStepH pl val types st i).1.2, nv ≤ y) := by
  have hvi : nv ≤ val.vertices.getD i 0 := hval _ (getD_mem _ _ _ hi)
  have hj : (i + 1) % val.vertices.length < val.vertices.length :=
    Nat.mod_lt _ (Nat.zero_lt_of_lt hi)
  have hvj : nv ≤ val.vertices.getD ((i + 1) % val.vertices.length) 0 :=
    hval _ (getD_mem _ _ _ hj)
  simp only [spanStepH]
  by_cases hB : types.getD i 0 ≠ Plane.BACK <;>
    by_cases hF : types.getD i 0 ≠ Plane.FRONT <;>
      by_cases hS : (types.getD i 0 |||
          types.getD ((i + 1) % val.vertices.length) 0) = Plane.SPANNING
  · -- keep vi in f, clone vi into b, crossing
    simp only [if_pos hB, if_pos hF, if_pos hS]
    obtain ⟨o1, f1, g1⟩ := vertexCloneH_frame hOk (val.vertices.getD i 0)
    obtain ⟨o2, f2, g2⟩ := vertexInterpolateH_frame o1 (val.vertices.getD i 0)
      (val.vertices.getD ((i + 1) % val.vertices.length) 0) _
    obtain ⟨o3, f3, g3⟩ := vertexCloneH_frame o2 _
    refine ⟨o3, frame_trans f1 (frame_trans f2 f3), ?_, ?_⟩
    · intro y hy
      rcases List.mem_append.mp hy with hy | hy
      · rcases List.mem_append.mp hy with hy | hy
        · exact hf y hy
        · obtain rfl := List.mem_singleton.mp hy; exact hvi
      · obtain rfl := List.mem_singleton.mp hy; exact g2
    · intro y hy
      rcases List.mem_append.mp hy with hy | hy
      · rcases List.mem_append.mp hy with hy | hy
        · exact hb y hy
        · obtain rfl := List.mem_singleton.mp hy; exact g1
      · obtain rfl := List.mem_singleton.mp hy; exact g3
  · -- keep vi in f, clone vi into b, no crossing
    simp only [if_pos hB, if_pos hF, if_neg hS]
    obtain ⟨o1, f1, g1⟩ := vertexCloneH_frame hOk (val.vertices.getD i 0)
    refine ⟨o1, f1, ?_, ?_⟩
    · intro y hy
      rcases List.mem_append.mp hy with hy | hy
      · exact hf y hy
      · obtain rfl := List.mem_singleton.mp hy; exact hvi
    · intro y hy
      rcases List.mem_append.mp hy with hy | hy
      · exact hb y hy
      · obtain rfl := List.mem_singleton.mp hy; exact g1
  · -- FRONT vertex: kept in f only, crossing
    simp only [if_pos hB, if_neg hF, if_pos hS]
    obtain ⟨o2, f2, g2⟩ := vertexInterpolateH_frame hOk (val.vertices.getD i 0)
      (val.vertices.getD ((i + 1) % val.vertices.length) 0) _
    obtain ⟨o3, f3, g3⟩ := vertexCloneH_frame o2 _
    refine ⟨o3, frame_trans f2 f3, ?_, ?_⟩
    · intro y hy
      rcases List.mem_append.mp hy with hy | hy
      · rcases List.mem_append.mp hy with hy | hy
        · exact hf y hy
        · obtain rfl := List.mem_singleton.mp hy; exact hvi
      · obtain rfl := List.mem_singleton.mp hy; exact g2
    · intro y hy
      rcases List.mem_append.mp hy with hy | hy
      · exact hb y hy
      · obtain rfl := List.mem_singleton.mp hy; exact g3
  · -- FRONT vertex, no crossing: pure bookkeeping
    simp only [if_pos hB, if_neg hF, if_neg hS]
    refine ⟨hOk, frame_rfl nv np st.2, ?_, hb⟩
    intro y hy
    rcases List.mem_append.mp hy with hy | hy
    · exact hf y hy
    · obtain rfl := List.mem_singleton.mp hy; exact hvi
  · -- BACK vertex: pushed to b (uncLoned), crossing
    simp only [if_neg hB, if_pos hF, if_pos hS]
    obtain ⟨o2, f2, g2⟩ := vertexInterpolateH_frame hOk (val.vertices.getD i 0)
      (val.vertices.getD ((i + 1) % val.vertices.length) 0) _
    obtain ⟨o3, f3, g3⟩ := vertexCloneH_frame o2 _
    refine ⟨o3, frame_trans f2 f3, ?_, ?_⟩
    · intro y hy
      rcases List.mem_append.mp hy with hy | hy
      · rcases List.mem_append.mp hy with hy | hy
        · exact hf y hy
        · exact absurd hy (List.not_mem_nil y)
      · obtain rfl := List.mem_singleton.mp hy; exact g2
    · intro y hy
      rcases List.mem_append.mp hy with hy | hy
      · rcases List.mem_append.mp hy with hy | hy
        · exact hb y hy
        · obtain rfl := List.mem_singleton.mp hy; exact hvi
      · obtain rfl := List.mem_singleton.mp hy; exact g3
  · -- BACK vertex, no crossing
    simp only [if_neg hB, if_pos hF, if_neg hS]
    refine ⟨hOk, frame_rfl nv np st.2, ?_, ?_⟩
    · intro y hy
      rcases List.mem_append.mp hy with hy | hy
      · exact hf y hy
      · exact absurd hy (List.not_mem_nil y)
    · intro y hy
      rcases List.mem_append.mp hy with hy | hy
      · exact hb y hy
      · obtain rfl := List.mem_singleton.mp hy; exact hvi
  all_goals
    exfalso
    simp only [ne_eq, not_not, Plane.BACK, Plane.FRONT] at hB hF
    omega

theorem spanFold_frame {S : Type} {nv np : ℕ} (pl : Plane) (val : PolyVal S)
    (types : List ℕ) (hval : ∀ vid ∈ val.vertices, nv ≤ vid) (idxs : List ℕ)
    (hidxs : ∀ i ∈ idxs, i < val.vertices.length) :
    ∀ (st : (List VId × List VId) × Heap S), Ok nv np st.2 →
      (∀ y ∈ st.1.1, nv ≤ y) → (∀ y ∈ st.1.2, nv ≤ y) →
      Ok nv np (idxs.foldl (spanStepH pl val types) st).2 ∧
        Frame nv np st.2 (idxs.foldl (spanStepH pl val types) st).2 ∧
        (∀ y ∈ (idxs.foldl (spanStepH pl val types) st).1.1, nv ≤ y) ∧
        (∀ y ∈ (idxs.foldl (spanStepH pl val types) st).1.2, nv ≤ y) := by
  induction idxs with
  | nil => intro st hOk hf hb; exact ⟨hOk, frame_rfl nv np st.2, hf, hb⟩
  | cons x xs ih =>
    intro st hOk hf hb
    obtain ⟨o1, f1, g1, g2⟩ :=
      spanStepH_frame pl val types hval x (hidxs x (by simp)) st hOk hf hb
    obtain ⟨o2, f2, g3, g4⟩ :=
      ih (fun i hi => hidxs i (by simp [hi])) (spanStepH pl val types st x) o1 g1 g2
    exact ⟨o2, frame_trans f1 f2, g3, g4⟩

theorem splitPolygonH_frame {S : Type} {nv np : ℕ} {h : Heap S} (hOk : Ok nv np h)
    (sq : ℚ → ℚ) (pl : Plane) {pid : PId} (hpid : np ≤ pid) :
    Ok nv np (splitPolygonH sq h pl pid).2 ∧ Frame nv np h (splitPolygonH sq h pl pid).2 ∧
      (∀ q ∈ (splitPolygonH sq h pl pid).1.coplanarFront, np ≤ q) ∧
      (∀ q ∈ (splitPolygonH sq h pl pid).1.coplanarBack, np ≤ q) ∧
      (∀ q ∈ (splitPolygonH sq h pl pid).1.front, np ≤ q) ∧
      (∀ q ∈ (splitPolygonH sq h pl pid).1.back, np ≤ q) := by
  have hval : ∀ vid ∈ (h.poly pid).vertices, nv ≤ vid := hOk.2.2 pid hpid
  simp only [splitPolygonH]
  split
  · split <;>
      exact ⟨hOk, frame_rfl nv np h, by simp_all, by simp_all, by simp_all, by simp_all⟩
  · split
    · exact ⟨hOk, frame_rfl nv np h, by simp_all, by simp_all, by simp_all, by simp_all⟩
    · split
      · exact ⟨hOk, frame_rfl nv np h, by simp_all, by simp_all, by simp_all, by simp_all⟩
      · obtain ⟨o1, f1, g1, g2⟩ := spanFold_frame pl (h.poly pid) _ hval
          (List.range (h.poly pid).vertices.length) (fun i hi => List.mem_range.mp hi)
          (([], []), h) hOk (by simp) (by simp)
        split
        case isTrue h3 =>
          obtain ⟨o2, f2, g5⟩ := polygonNewH_frame o1 sq g1 (h.poly pid).shared
          split
          case isTrue h4 =>
            obtain ⟨o3, f3, g6⟩ := polygonNewH_frame o2 sq
              (fun vid hv => g2 vid hv) (h.poly pid).shared
            refine ⟨o3, frame_trans f1 (frame_trans f2 f3), by simp, by simp, ?_, ?_⟩
            · intro q hq; simp at hq; subst hq; exact g5
            · intro q hq; simp at hq; subst hq; exact g6
          case isFalse h4 =>
            refine ⟨o2, frame_trans f1 f2, by simp, by simp, ?_, by simp⟩
            intro q hq; simp at hq; subst hq; exact g5
        case isFalse h3 =>
          split
          case isTrue h4 =>
            obtain ⟨o3, f3, g6⟩ := polygonNewH_frame o1 sq g2 (h.poly pid).shared
            refine ⟨o3, frame_trans f1 f3, by simp, by simp, by simp, ?_⟩
            intro q hq; simp at hq; subst hq; exact g6
          case isFalse h4 =>
            exact ⟨o1, f1, by simp, by simp, by simp, by simp⟩

theorem clipFold_frame {S : Type} {nv np : ℕ} (sq : ℚ → ℚ) (pl : Plane) (ps : List PId) :
    ∀ (st : (List PId × List PId) × Heap S), Ok nv np st.2 →
      (∀ y ∈ st.1.1, np ≤ y) → (∀ y ∈ st.1.2, np ≤ y) → (∀ y ∈ ps, np ≤ y) →
      Ok nv np (ps.foldl (fun (acc : (List PId × List PId) × Heap S) pid =>
          let out := splitPolygonH sq acc.2 pl pid
          ((acc.1.1 ++ out.1.coplanarFront ++ out.1.front,
            acc.1.2 ++ out.1.coplanarBack ++ out.1.back), out.2)) st).2 ∧
        Frame nv np st.2 (ps.foldl (fun (acc : (List PId × List PId) × Heap S) pid =>
          let out := splitPolygonH sq acc.2 pl pid
          ((acc.1.1 ++ out.1.coplanarFront ++ out.1.front,
            acc.1.2 ++ out.1.coplanarBack ++ out.1.back), out.2)) st).2 ∧
        (∀ y ∈ (ps.foldl (fun (acc : (List PId × List PId) × Heap S) pid =>
          let out := splitPolygonH sq acc.2 pl pid
          ((acc.1.1 ++ out.1.coplanarFront ++ out.1.front,
            acc.1.2 ++ out.1.coplanarBack ++ out.1.back), out.2)) st).1.1, np ≤ y) ∧
        (∀ y ∈ (ps.foldl (fun (acc : (List PId × List PId) × Heap S) pid =>
          let out := splitPolygonH sq acc.2 pl pid
          ((acc.1.1 ++ out.1.coplanarFront ++ out.1.front,
            acc.1.2 ++ out.1.coplanarBack ++ out.1.back), out.2)) st).1.2, np ≤ y) := by
  induction ps with
  | nil => intro st hOk h1 h2 _; exact ⟨hOk, frame_rfl nv np st.2, h1, h2⟩
  | cons x xs ih =>
    intro st hOk h1 h2 hps
    obtain ⟨o1, f1, gcf, gcb, gf, gb⟩ :=
      splitPolygonH_frame hOk sq pl (hps x (by simp))
    have h1' : ∀ y ∈ st.1.1 ++ (splitPolygonH sq st.2 pl x).1.coplanarFront ++
        (splitPolygonH sq st.2 pl x).1.front, np ≤ y := by
      intro y hy
      rcases List.mem_append.mp hy with hy | hy
      · rcases List.mem_append.mp hy with hy | hy
        · exact h1 y hy
        · exact gcf y hy
      · exact gf y hy
    have h2' : ∀ y ∈ st.1.2 ++ (splitPolygonH sq st.2 pl x).1.coplanarBack ++
        (splitPolygonH sq st.2 pl x).1.back, np ≤ y := by
      intro y hy
      rcases List.mem_append.mp hy with hy | hy
      · rcases List.mem_append.mp hy with hy | hy
        · exact h2 y hy
        · exact gcb y hy
      · exact gb y hy
    obtain ⟨o2, f2, g3, g4⟩ := ih
      ((st.1.1 ++ (splitPolygonH sq st.2 pl x).1.coplanarFront ++
          (splitPolygonH sq st.2 pl x).1.front,
        st.1.2 ++ (splitPolygonH sq st.2 pl x).1.coplanarBack ++
          (splitPolygonH sq st.2 pl x).1.back), (splitPolygonH sq st.2 pl x).2)
      o1 h1' h2' (fun y hy => hps y (by simp [hy]))
    exact ⟨o2, frame_trans f1 f2, g3, g4⟩

mutual

theorem clipPolygonsH_frame {S : Type} {nv np : ℕ} (sq : ℚ → ℚ) :
    ∀ (t : NodeH) (h : Heap S) (ps : List PId), Ok nv np h → (∀ pid ∈ ps, np ≤ pid) →
      Ok nv np (NodeH.clipPolygons sq h t ps).2 ∧
        Frame nv np h (NodeH.clipPolygons sq h t ps).2 ∧
        ∀ pid ∈ (NodeH.clipPolygons sq h t ps).1, np ≤ pid
  | .mk none fr bk ps0, h, ps, hOk, hps => ⟨hOk, frame_rfl nv np h, hps⟩
  | .mk (some pl) fr bk ps0, h, ps, hOk, hps => by
    unfold NodeH.clipPolygons
    obtain ⟨o1, f1, g1, g2⟩ :=
      clipFold_frame sq pl ps (([], []), h) hOk (by simp) (by simp) hps
    obtain ⟨o2, f2, g3⟩ := clipPolygonsOH_frame sq fr _ _ o1 g1
    cases bk with
    | none =>
      refine ⟨o2, frame_trans f1 f2, ?_⟩
      intro pid hpid
      rcases List.mem_append.mp hpid with hpid | hpid
      · exact g3 pid hpid
      · exact absurd hpid (List.not_mem_nil pid)
    | some b =>
      obtain ⟨o3, f3, g4⟩ := clipPolygonsH_frame sq b _ _ o2 g2
      refine ⟨o3, frame_trans f1 (frame_trans f2 f3), ?_⟩
      intro pid hpid
      rcases List.mem_append.mp hpid with hpid | hpid
      · exact g3 pid hpid
      · exact g4 pid hpid
termination_by t => sizeOf t
decreasing_by all_goals (simp_wf; omega)

theorem clipPolygonsOH_frame {S : Type} {nv np : ℕ} (sq : ℚ → ℚ) :
    ∀ (o : Option NodeH) (h : Heap S) (ps : List PId), Ok nv np h →
      (∀ pid ∈ ps, np ≤ pid) →
      Ok nv np (NodeH.clipPolygonsO sq h o ps).2 ∧
        Frame nv np h (NodeH.clipPolygonsO sq h o ps).2 ∧
        ∀ pid ∈ (NodeH.clipPolygonsO sq h o ps).1, np ≤ pid
  | none, h, ps, hOk, hps => ⟨hOk, frame_rfl nv np h, hps⟩
  | some n, h, ps, hOk, hps => clipPolygonsH_frame sq n h ps hOk hps
termination_by o => sizeOf o

end

mutual

theorem treeGE_allPolygons {np : ℕ} :
    ∀ (t : NodeH), TreeGE np t → ∀ pid ∈ t.allPolygons, np ≤ pid
  | .mk pl fr bk ps, hge, pid, hpid => by
    unfold TreeGE at hge
    unfold NodeH.allPolygons at hpid
    obtain ⟨h1, h2, h3⟩ := hge
    rcases List.mem_append.mp hpid with hpid | hpid
    · rcases List.mem_append.mp hpid with hpid | hpid
      · exact h1 pid hpid
      · exact treeGE_allPolygonsO fr h2 pid hpid
    · exact treeGE_allPolygonsO bk h3 pid hpid
termination_by t => sizeOf t

theorem treeGE_allPolygonsO {np : ℕ} :
    ∀ (o : Option NodeH),
      TreeGEO np o → ∀ pid ∈ NodeH.allPolygonsO o, np ≤ pid
  | none, _, pid, hpid => absurd hpid (List.not_mem_nil pid)
  | some n, hge, pid, hpid => treeGE_allPolygons n hge pid hpid
termination_by o => sizeOf o

end

mutual

theorem clipToH_frame {S : Type} {nv np : ℕ} (sq : ℚ → ℚ) :
    ∀ (t : NodeH) (h : Heap S) (bsp : NodeH), Ok nv np h → TreeGE np t →
      Ok nv np (NodeH.clipTo sq h t bsp).2 ∧ Frame nv np h (NodeH.clipTo sq h t bsp).2 ∧
        TreeGE np (NodeH.clipTo sq h t bsp).1
  | .mk pl fr bk ps, h, bsp, hOk, hge => by
    unfold TreeGE at hge
    obtain ⟨h1, h2, h3⟩ := hge
    unfold NodeH.clipTo
    obtain ⟨o1, f1, g1⟩ := clipPolygonsH_frame sq bsp h ps hOk h1
    obtain ⟨o2, f2, g2⟩ := clipToOH_frame sq fr _ bsp o1 h2
    obtain ⟨o3, f3, g3⟩ := clipToOH_frame sq bk _ bsp o2 h3
    refine ⟨o3, frame_trans f1 (frame_trans f2 f3), ?_⟩
    unfold TreeGE
    exact ⟨g1, g2, g3⟩
termination_by t => sizeOf t

theorem clipToOH_frame {S : Type} {nv np : ℕ} (sq : ℚ → ℚ) :
    ∀ (o : Option NodeH) (h : Heap S) (bsp : NodeH), Ok nv np h →
      TreeGEO np o →
      Ok nv np (NodeH.clipToO sq h o bsp).2 ∧ Frame nv np h (NodeH.clipToO sq h o bsp).2 ∧
        TreeGEO np (NodeH.clipToO sq h o bsp).1
  | none, h, bsp, hOk, _ => ⟨hOk, frame_rfl nv np h, trivial⟩
  | some n, h, bsp, hOk, hge => by
    obtain ⟨o1, f1, g1⟩ := clipToH_frame sq n h bsp hOk hge
    exact ⟨o1, f1, g1⟩
termination_by o => sizeOf o

end

theorem buildFold_frame {S : Type} {nv np : ℕ} (sq : ℚ → ℚ) (pl : Plane) (ps : List PId) :
    ∀ (st : (List PId × List PId × List PId) × Heap S), Ok nv np st.2 →
      (∀ y ∈ st.1.1, np ≤ y) → (∀ y ∈ st.1.2.1, np ≤ y) → (∀ y ∈ st.1.2.2, np ≤ y) →
      (∀ y ∈ ps, np ≤ y) →
      Ok nv np (ps.foldl (fun (acc : (List PId × List PId × List PId) × Heap S) pid =>
          let out := splitPolygonH sq acc.2 pl pid
          ((acc.1.1 ++ out.1.coplanarFront ++ out.1.coplanarBack,
            acc.1.2.1 ++ out.1.front, acc.1.2.2 ++ out.1.back), out.2)) st).2 ∧
        Frame nv np st.2 (ps.foldl (fun (acc : (List PId × List PId × List PId) × Heap S) pid =>
          let out := splitPolygonH sq acc.2 pl pid
          ((acc.1.1 ++ out.1.coplanarFront ++ out.1.coplanarBack,
            acc.1.2.1 ++ out.1.front, acc.1.2.2 ++ out.1.back), out.2)) st).2 ∧
        (∀ y ∈ (ps.foldl (fun (acc : (List PId × List PId × List PId) × Heap S) pid =>
          let out := splitPolygonH sq acc.2 pl pid
          ((acc.1.1 ++ out.1.coplanarFront ++ out.1.coplanarBack,
            acc.1.2.1 ++ out.1.front, acc.1.2.2 ++ out.1.back), out.2)) st).1.1, np ≤ y) ∧
        (∀ y ∈ (ps.foldl (fun (acc : (List PId × List PId × List PId) × Heap S) pid =>
          let out := splitPolygonH sq acc.2 pl pid
          ((acc.1.1 ++ out.1.coplanarFront ++ out.1.coplanarBack,
            acc.1.2.1 ++ out.1.front, acc.1.2.2 ++ out.1.back), out.2)) st).1.2.1, np ≤ y) ∧
        (∀ y ∈ (ps.foldl (fun (acc : (List PId × List PId × List PId) × Heap S) pid =>
          let out := splitPolygonH sq acc.2 pl pid
          ((acc.1.1 ++ out.1.coplanarFront ++ out.1.coplanarBack,
            acc.1.2.1 ++ out.1.front, acc.1.2.2 ++ out.1.back), out.2)) st).1.2.2, np ≤ y) := by
  induction ps with
  | nil => intro st hOk h1 h2 h3 _; exact ⟨hOk, frame_rfl nv np st.2, h1, h2, h3⟩
  | cons x xs ih =>
    intro st hOk h1 h2 h3 hps
    obtain ⟨o1, f1, gcf, gcb, gf, gb⟩ := splitPolygonH_frame hOk sq pl (hps x (by simp))
    have h1' : ∀ y ∈ st.1.1 ++ (splitPolygonH sq st.2 pl x).1.coplanarFront ++
        (splitPolygonH sq st.2 pl x).1.coplanarBack, np ≤ y := by
      intro y hy
      rcases List.mem_append.mp hy with hy | hy
      · rcases List.mem_append.mp hy with hy | hy
        · exact h1 y hy
        · exact gcf y hy
      · exact gcb y hy
    have h2' : ∀ y ∈ st.1.2.1 ++ (splitPolygonH sq st.2 pl x).1.front, np ≤ y := by
      intro y hy
      rcases List.mem_append.mp hy with hy | hy
      · exact h2 y hy
      · exact gf y hy
    have h3' : ∀ y ∈ st.1.2.2 ++ (splitPolygonH sq st.2 pl x).1.back, np ≤ y := by
      intro y hy
      rcases List.mem_append.mp hy with hy | hy
      · exact h3 y hy
      · exact gb y hy
    obtain ⟨o2, f2, g4, g5, g6⟩ := ih
      ((st.1.1 ++ (splitPolygonH sq st.2 pl x).1.coplanarFront ++
          (splitPolygonH sq st.2 pl x).1.coplanarBack,
        st.1.2.1 ++ (splitPolygonH sq st.2 pl x).1.front,
        st.1.2.2 ++ (splitPolygonH sq st.2 pl x).1.back), (splitPolygonH sq st.2 pl x).2)
      o1 h1' h2' h3' (fun y hy => hps y (by simp [hy]))
    exact ⟨o2, frame_trans f1 f2, g4, g5, g6⟩

theorem treeGE_empty (np : ℕ) : TreeGE np NodeH.empty := by
  unfold NodeH.empty TreeGE
  exact ⟨by simp, trivial, trivial⟩

theorem treeGE_getD {np : ℕ} (o : Option NodeH) (ho : TreeGEO np o) :
    TreeGE np (o.getD NodeH.empty) := by
  cases o with
  | none => exact treeGE_empty np
  | some f => exact ho

theorem buildH_frame {S : Type} {nv np : ℕ} (sq : ℚ → ℚ) :
    ∀ (fuel : ℕ) (node : NodeH) (h : Heap S) (ps : List PId) (t' : NodeH) (h' : Heap S),
      NodeH.build sq fuel h node ps = some (t', h') →
      Ok nv np h → TreeGE np node → (∀ pid ∈ ps, np ≤ pid) →
      Ok nv np h' ∧ Frame nv np h h' ∧ TreeGE np t' := by
  intro fuel
  induction fuel with
  | zero =>
    intro node h ps t' h' hb hOk hge hps
    cases ps with
    | nil =>
      cases node
      unfold NodeH.build at hb
      rw [Option.some_inj] at hb
      rw [Prod.mk.injEq] at hb
      obtain ⟨rfl, rfl⟩ := hb
      exact ⟨hOk, frame_rfl nv np _, hge⟩
    | cons p ps => exact absurd hb (by cases node; simp [NodeH.build])
  | succ fuel ih =>
    intro node h ps t' h' hb hOk hge hps
    cases ps with
    | nil =>
      cases node
      unfold NodeH.build at hb
      rw [Option.some_inj] at hb
      rw [Prod.mk.injEq] at hb
      obtain ⟨rfl, rfl⟩ := hb
      exact ⟨hOk, frame_rfl nv np _, hge⟩
    | cons p ps =>
      cases node with
      | mk pl0 fr0 bk0 ps0 =>
        unfold TreeGE at hge
        obtain ⟨hg1, hg2, hg3⟩ := hge
        cases pl0 with
        | some p0 =>
          unfold NodeH.build at hb
          rw [Option.bind_eq_some] at hb
          obtain ⟨⟨fr', hfr⟩, hfrEq, hb⟩ := hb
          rw [Option.bind_eq_some] at hb
          obtain ⟨⟨bk', hbk⟩, hbkEq, hb⟩ := hb
          rw [Option.some_inj, Prod.mk.injEq] at hb
          obtain ⟨rfl, rfl⟩ := hb
          obtain ⟨o1, f1, g1, g2, g3⟩ := buildFold_frame sq
            (p0)
            (p :: ps) ((ps0, [], []), h) hOk hg1 (by simp) (by simp) hps
          have hfr2 : Ok nv np hfr ∧ Frame nv np h hfr ∧ TreeGEO np fr' := by
            split at hfrEq
            · rw [Option.some_inj, Prod.mk.injEq] at hfrEq
              obtain ⟨rfl, rfl⟩ := hfrEq
              exact ⟨o1, f1, hg2⟩
            · rw [Option.map_eq_some'] at hfrEq
              obtain ⟨⟨c', hc'⟩, hcEq, hpair⟩ := hfrEq
              rw [Prod.mk.injEq] at hpair
              obtain ⟨rfl, rfl⟩ := hpair
              obtain ⟨o2, f2x, g4⟩ := ih _ _ _ _ _ hcEq o1 (treeGE_getD fr0 hg2) g2
              exact ⟨o2, frame_trans f1 f2x, g4⟩
          obtain ⟨o3, f3, g5⟩ := hfr2
          have hbk2 : Ok nv np hbk ∧ Frame nv np h hbk ∧ TreeGEO np bk' := by
            split at hbkEq
            · rw [Option.some_inj, Prod.mk.injEq] at hbkEq
              obtain ⟨rfl, rfl⟩ := hbkEq
              exact ⟨o3, f3, hg3⟩
            · rw [Option.map_eq_some'] at hbkEq
              obtain ⟨⟨c', hc'⟩, hcEq, hpair⟩ := hbkEq
              rw [Prod.mk.injEq] at hpair
              obtain ⟨rfl, rfl⟩ := hpair
              obtain ⟨o4, f4x, g6⟩ := ih _ _ _ _ _ hcEq o3 (treeGE_getD bk0 hg3) g3
              exact ⟨o4, frame_trans f3 f4x, g6⟩
          obtain ⟨o5, f5, g7⟩ := hbk2
          refine ⟨o5, f5, ?_⟩
          unfold TreeGE
          exact ⟨g1, g5, g7⟩
        | none =>
          unfold NodeH.build at hb
          rw [Option.bind_eq_some] at hb
          obtain ⟨⟨fr', hfr⟩, hfrEq, hb⟩ := hb
          rw [Option.bind_eq_some] at hb
          obtain ⟨⟨bk', hbk⟩, hbkEq, hb⟩ := hb
          rw [Option.some_inj, Prod.mk.injEq] at hb
          obtain ⟨rfl, rfl⟩ := hb
          obtain ⟨o1, f1, g1, g2, g3⟩ := buildFold_frame sq
            (((h.poly ((p :: ps).headD 0)).plane).clone)
            (p :: ps) ((ps0, [], []), h) hOk hg1 (by simp) (by simp) hps
          have hfr2 : Ok nv np hfr ∧ Frame nv np h hfr ∧ TreeGEO np fr' := by
            split at hfrEq
            · rw [Option.some_inj, Prod.mk.injEq] at hfrEq
              obtain ⟨rfl, rfl⟩ := hfrEq
              exact ⟨o1, f1, hg2⟩
            · rw [Option.map_eq_some'] at hfrEq
              obtain ⟨⟨c', hc'⟩, hcEq, hpair⟩ := hfrEq
              rw [Prod.mk.injEq] at hpair
              obtain ⟨rfl, rfl⟩ := hpair
              obtain ⟨o2, f2x, g4⟩ := ih _ _ _ _ _ hcEq o1 (treeGE_getD fr0 hg2) g2
              exact ⟨o2, frame_trans f1 f2x, g4⟩
          obtain ⟨o3, f3, g5⟩ := hfr2
          have hbk2 : Ok nv np hbk ∧ Frame nv np h hbk ∧ TreeGEO np bk' := by
            split at hbkEq
            · rw [Option.some_inj, Prod.mk.injEq] at hbkEq
              obtain ⟨rfl, rfl⟩ := hbkEq
              exact ⟨o3, f3, hg3⟩
            · rw [Option.map_eq_some'] at hbkEq
              obtain ⟨⟨c', hc'⟩, hcEq, hpair⟩ := hbkEq
              rw [Prod.mk.injEq] at hpair
              obtain ⟨rfl, rfl⟩ := hpair
              obtain ⟨o4, f4x, g6⟩ := ih _ _ _ _ _ hcEq o3 (treeGE_getD bk0 hg3) g3
              exact ⟨o4, frame_trans f3 f4x, g6⟩
          obtain ⟨o5, f5, g7⟩ := hbk2
          refine ⟨o5, f5, ?_⟩
          unfold TreeGE
          exact ⟨g1, g5, g7⟩

mutual

theorem invertH_frame {S : Type} {nv np : ℕ} :
    ∀ (t : NodeH) (h : Heap S) (t' : NodeH) (h' : Heap S), Ok nv np h → TreeGE np t →
      NodeH.invert h t = some (t', h') → Ok nv np h' ∧ Frame nv np h h' ∧ TreeGE np t'
  | .mk pl fr bk ps, h, t', h', hOk, hge, hinv => by
    unfold TreeGE at hge
    obtain ⟨hg1, hg2, hg3⟩ := hge
    cases pl with
    | none => simp [NodeH.invert] at hinv
    | some p =>
      unfold NodeH.invert at hinv
      rw [Option.some_bind, Option.bind_eq_some] at hinv
      obtain ⟨⟨fr', hfr⟩, hfrEq, hinv⟩ := hinv
      rw [Option.bind_eq_some] at hinv
      obtain ⟨⟨bk', hbk⟩, hbkEq, hinv⟩ := hinv
      rw [Option.some_inj, Prod.mk.injEq] at hinv
      obtain ⟨rfl, rfl⟩ := hinv
      obtain ⟨o1, f1⟩ := polyFlipFold_frame ps h hOk hg1
      obtain ⟨o2, f2, g2⟩ := invertOH_frame fr _ fr' hfr o1 hg2 hfrEq
      obtain ⟨o3, f3, g3⟩ := invertOH_frame bk _ bk' hbk o2 hg3 hbkEq
      refine ⟨o3, frame_trans f1 (frame_trans f2 f3), ?_⟩
      unfold TreeGE
      exact ⟨hg1, g3, g2⟩
termination_by t => sizeOf t

theorem invertOH_frame {S : Type} {nv np : ℕ} :
    ∀ (o : Option NodeH) (h : Heap S) (o' : Option NodeH) (h' : Heap S), Ok nv np h →
      TreeGEO np o → NodeH.invertO h o = some (o', h') →
      Ok nv np h' ∧ Frame nv np h h' ∧ TreeGEO np o'
  | none, h, o', h', hOk, _, hinv => by
    simp only [NodeH.invertO, Option.some_inj, Prod.mk.injEq] at hinv
    obtain ⟨rfl, rfl⟩ := hinv
    exact ⟨hOk, frame_rfl nv np h, trivial⟩
  | some n, h, o', h', hOk, hge, hinv => by
    simp only [NodeH.invertO, Option.map_eq_some'] at hinv
    obtain ⟨⟨n', hn⟩, hnEq, hpair⟩ := hinv
    rw [Prod.mk.injEq] at hpair
    obtain ⟨rfl, rfl⟩ := hpair
    obtain ⟨o1, f1, g1⟩ := invertH_frame n h n' hn hOk hge hnEq
    exact ⟨o1, f1, g1⟩
termination_by o => sizeOf o

end

theorem nodeNewH_frame {S : Type} {nv np : ℕ} (sq : ℚ → ℚ) (fuel : ℕ) {h : Heap S}
    {ps : List PId} {r : NodeH × Heap S} (hnew : NodeH.new sq fuel h ps = some r)
    (hOk : Ok nv np h) (hps : ∀ pid ∈ ps, np ≤ pid) :
    Ok nv np r.2 ∧ Frame nv np h r.2 ∧ TreeGE np r.1 :=
  buildH_frame sq fuel NodeH.empty h ps r.1 r.2 hnew hOk (treeGE_empty np) hps

theorem unionH_frame {S : Type} {nv np : ℕ} (sq : ℚ → ℚ) (fuel : ℕ) (h : Heap S)
    (a b : List PId) (r : List PId × Heap S) (hOk : Ok nv np h)
    (heq : unionH sq fuel h a b = some r) : Ok nv np r.2 ∧ Frame nv np h r.2 := by
  unfold unionH at heq
  dsimp only at heq
  simp only [Option.bind_eq_bind', Option.pure_def] at heq
  obtain ⟨oc, fc, gc⟩ := csgCloneH_frame hOk sq a
  rw [Option.bind_eq_some] at heq
  obtain ⟨na, hna, heq⟩ := heq
  obtain ⟨o1, f1, g1⟩ := nodeNewH_frame sq fuel hna oc gc
  obtain ⟨oc2, fc2, gc2⟩ := csgCloneH_frame o1 sq b
  rw [Option.bind_eq_some] at heq
  obtain ⟨nb, hnb, heq⟩ := heq
  obtain ⟨o2, f2, g2⟩ := nodeNewH_frame sq fuel hnb oc2 gc2
  obtain ⟨o3, f3, g3⟩ := clipToH_frame sq na.1 nb.2 nb.1 o2 g1
  obtain ⟨o4, f4, g4⟩ := clipToH_frame sq nb.1 (NodeH.clipTo sq nb.2 na.1 nb.1).2
    (NodeH.clipTo sq nb.2 na.1 nb.1).1 o3 g2
  rw [Option.bind_eq_some] at heq
  obtain ⟨i1, hi1, heq⟩ := heq
  obtain ⟨o5, f5, g5⟩ := invertH_frame _ _ i1.1 i1.2 o4 g4 hi1
  obtain ⟨o6, f6, g6⟩ := clipToH_frame sq i1.1 i1.2 (NodeH.clipTo sq nb.2 na.1 nb.1).1 o5 g5
  rw [Option.bind_eq_some] at heq
  obtain ⟨i2, hi2, heq⟩ := heq
  obtain ⟨o7, f7, g7⟩ := invertH_frame _ _ i2.1 i2.2 o6 g6 hi2
  rw [Option.bind_eq_some] at heq
  obtain ⟨bd, hbd, heq⟩ := heq
  obtain ⟨o8, f8, g8⟩ := buildH_frame sq fuel (NodeH.clipTo sq nb.2 na.1 nb.1).1 i2.2
    (NodeH.allPolygons i2.1) bd.1 bd.2 hbd o7 g3 (treeGE_allPolygons i2.1 g7)
  rw [Option.some_inj] at heq
  subst heq
  exact ⟨o8, frame_trans fc (frame_trans f1 (frame_trans fc2 (frame_trans f2
    (frame_trans f3 (frame_trans f4 (frame_trans f5 (frame_trans f6
      (frame_trans f7 f8))))))))⟩

theorem subtractH_frame {S : Type} {nv np : ℕ} (sq : ℚ → ℚ) (fuel : ℕ) (h : Heap S)
    (a b : List PId) (r : List PId × Heap S) (hOk : Ok nv np h)
    (heq : subtractH sq fuel h a b = some r) : Ok nv np r.2 ∧ Frame nv np h r.2 := by
  unfold subtractH at heq
  dsimp only at heq
  simp only [Option.bind_eq_bind', Option.pure_def] at heq
  obtain ⟨oc, fc, gc⟩ := csgCloneH_frame hOk sq a
  rw [Option.bind_eq_some] at heq
  obtain ⟨na, hna, heq⟩ := heq
  obtain ⟨o1, f1, g1⟩ := nodeNewH_frame sq fuel hna oc gc
  obtain ⟨oc2, fc2, gc2⟩ := csgCloneH_frame o1 sq b
  rw [Option.bind_eq_some] at heq
  obtain ⟨nb, hnb, heq⟩ := heq
  obtain ⟨o2, f2, g2⟩ := nodeNewH_frame sq fuel hnb oc2 gc2
  rw [Option.bind_eq_some] at heq
  obtain ⟨ia, hia, heq⟩ := heq
  obtain ⟨o3, f3, g3⟩ := invertH_frame _ _ ia.1 ia.2 o2 g1 hia
  obtain ⟨o4, f4, g4⟩ := clipToH_frame sq ia.1 ia.2 nb.1 o3 g3
  obtain ⟨o5, f5, g5⟩ := clipToH_frame sq nb.1 (NodeH.clipTo sq ia.2 ia.1 nb.1).2
    (NodeH.clipTo sq ia.2 ia.1 nb.1).1 o4 g2
  rw [Option.bind_eq_some] at heq
  obtain ⟨i1, hi1, heq⟩ := heq
  obtain ⟨o6, f6, g6⟩ := invertH_frame _ _ i1.1 i1.2 o5 g5 hi1
  obtain ⟨o7, f7, g7⟩ := clipToH_frame sq i1.1 i1.2 (NodeH.clipTo sq ia.2 ia.1 nb.1).1 o6 g6
  rw [Option.bind_eq_some] at heq
  obtain ⟨i2, hi2, heq⟩ := heq
  obtain ⟨o8, f8, g8⟩ := invertH_frame _ _ i2.1 i2.2 o7 g7 hi2
  rw [Option.bind_eq_some] at heq
  obtain ⟨bd, hbd, heq⟩ := heq
  obtain ⟨o9, f9, g9⟩ := buildH_frame sq fuel (NodeH.clipTo sq ia.2 ia.1 nb.1).1 i2.2
    (NodeH.allPolygons i2.1) bd.1 bd.2 hbd o8 g4 (treeGE_allPolygons i2.1 g8)
  rw [Option.bind_eq_some] at heq
  obtain ⟨fa, hfa, heq⟩ := heq
  obtain ⟨o10, f10, g10⟩ := invertH_frame _ _ fa.1 fa.2 o9 g9 hfa
  rw [Option.some_inj] at heq
  subst heq
  exact ⟨o10, frame_trans fc (frame_trans f1 (frame_trans fc2 (frame_trans f2
    (frame_trans f3 (frame_trans f4 (frame_trans f5 (frame_trans f6
      (frame_trans f7 (frame_trans f8 (frame_trans f9 f10))))))))))⟩

theorem intersectH_frame {S : Type} {nv np : ℕ} (sq : ℚ → ℚ) (fuel : ℕ) (h : Heap S)
    (a b : List PId) (r : List PId × Heap S) (hOk : Ok nv np h)
    (heq : intersectH sq fuel h a b = some r) : Ok nv np r.2 ∧ Frame nv np h r.2 := by
  unfold intersectH at heq
  dsimp only at heq
  simp only [Option.bind_eq_bind', Option.pure_def] at heq
  obtain ⟨oc, fc, gc⟩ := csgCloneH_frame hOk sq a
  rw [Option.bind_eq_some] at heq
  obtain ⟨na, hna, heq⟩ := heq
  obtain ⟨o1, f1, g1⟩ := nodeNewH_frame sq fuel hna oc gc
  obtain ⟨oc2, fc2, gc2⟩ := csgCloneH_frame o1 sq b
  rw [Option.bind_eq_some] at heq
  obtain ⟨nb, hnb, heq⟩ := heq
  obtain ⟨o2, f2, g2⟩ := nodeNewH_frame sq fuel hnb oc2 gc2
  rw [Option.bind_eq_some] at heq
  obtain ⟨ia, hia, heq⟩ := heq
  obtain ⟨o3, f3, g3⟩ := invertH_frame _ _ ia.1 ia.2 o2 g1 hia
  obtain ⟨o4, f4, g4⟩ := clipToH_frame sq nb.1 ia.2 ia.1 o3 g2
  rw [Option.bind_eq_some] at heq
  obtain ⟨i1, hi1, heq⟩ := heq
  obtain ⟨o5, f5, g5⟩ := invertH_frame _ _ i1.1 i1.2 o4 g4 hi1
  obtain ⟨o6, f6, g6⟩ := clipToH_frame sq ia.1 i1.2 i1.1 o5 g3
  obtain ⟨o7, f7, g7⟩ := clipToH_frame sq i1.1 (NodeH.clipTo sq i1.2 ia.1 i1.1).2
    (NodeH.clipTo sq i1.2 ia.1 i1.1).1 o6 g5
  rw [Option.bind_eq_some] at heq
  obtain ⟨bd, hbd, heq⟩ := heq
  obtain ⟨o8, f8, g8⟩ := buildH_frame sq fuel (NodeH.clipTo sq i1.2 ia.1 i1.1).1
    (NodeH.clipTo sq (NodeH.clipTo sq i1.2 ia.1 i1.1).2 i1.1
      (NodeH.clipTo sq i1.2 ia.1 i1.1).1).2
    (NodeH.allPolygons (NodeH.clipTo sq (NodeH.clipTo sq i1.2 ia.1 i1.1).2 i1.1
      (NodeH.clipTo sq i1.2 ia.1 i1.1).1).1) bd.1 bd.2 hbd o7 g6
    (treeGE_allPolygons _ g7)
  rw [Option.bind_eq_some] at heq
  obtain ⟨fa, hfa, heq⟩ := heq
  obtain ⟨o9, f9, g9⟩ := invertH_frame _ _ fa.1 fa.2 o8 g8 hfa
  rw [Option.some_inj] at heq
  subst heq
  exact ⟨o9, frame_trans fc (frame_trans f1 (frame_trans fc2 (frame_trans f2
    (frame_trans f3 (frame_trans f4 (frame_trans f5 (frame_trans f6
      (frame_trans f7 (frame_trans f8 f9)))))))))⟩

theorem inverseH_frame {S : Type} {nv np : ℕ} (sq : ℚ → ℚ) (h : Heap S) (a : List PId)
    (hOk : Ok nv np h) :
    Ok nv np (inverseH sq h a).2 ∧ Frame nv np h (inverseH sq h a).2 := by
  unfold inverseH
  obtain ⟨o1, f1, g1⟩ := csgCloneH_frame hOk sq a
  obtain ⟨o2, f2⟩ := polyFlipFold_frame (csgCloneH sq h a).1 (csgCloneH sq h a).2 o1 g1
  exact ⟨o2, frame_trans f1 f2⟩

theorem ok_init {S : Type} (h : Heap S) : Ok h.verts.length h.polys.length h := by
  refine ⟨le_refl _, le_refl _, ?_⟩
  intro pid hp vid hv
  rw [Heap.poly, List.getD_eq_default _ _ hp] at hv
  simp [default] at hv

end FrameLemmas

/-- C2: the boolean operators and `inverse` never mutate their argument
solids: in the object-store embedding, every vertex and polygon object
that exists before the call — in particular every object reachable from
either argument solid — reads back unchanged from the store when the
operation completes, for arbitrary argument id lists, because each
operator deep-clones its arguments first and thereafter touches only
working copies and fresh allocations. -/
theorem operators_never_mutate_arguments {S : Type} (sq : ℚ → ℚ) (fuel : ℕ) (h : Heap S)
    (a b : List PId) :
    opPreserves h (unionH sq fuel h a b) ∧ opPreserves h (subtractH sq fuel h a b) ∧
      opPreserves h (intersectH sq fuel h a b) ∧
      Frame h.verts.length h.polys.length h (inverseH sq h a).2 := by
  have hOk := ok_init h
  refine ⟨?_, ?_, ?_, (inverseH_frame sq h a hOk).2⟩
  · cases hc : unionH sq fuel h a b with
    | none => exact trivial
    | some r => exact (unionH_frame sq fuel h a b r hOk hc).2
  · cases hc : subtractH sq fuel h a b with
    | none => exact trivial
    | some r => exact (subtractH_frame sq fuel h a b r hOk hc).2
  · cases hc : intersectH sq fuel h a b with
    | none => exact trivial
    | some r => exact (intersectH_frame sq fuel h a b r hOk hc).2

section ConcreteEvaluations

attribute [local semireducible] Rat.add Rat.mul Rat.sub Rat.inv Nat.gcd

/-- Witness for C4 at a concrete input: the repository's own test
fixture, a triangle entirely at `x = 1` split by the plane `x = 0`, is
classified `FRONT` and appended whole to the front list only. -/
theorem splitPolygon_classification_witness :
    Plane.polygonTypeOf planeYZ triFront = Plane.FRONT ∧
      Plane.splitPolygon ratSqrt planeYZ triFront = ⟨[], [], [triFront], []⟩ :=
  ⟨by decide, (splitPolygon_classification ratSqrt planeYZ triFront).2.2.2.1 (by decide)⟩

/-- Witness for C5 at a concrete input: the repository's own test
fixture, a square straddling `x = 0`, is spanning and splits into one
front and one back fragment, both carrying the original shared tag. -/
theorem splitPolygon_spanning_fragments_witness :
    Plane.polygonTypeOf planeYZ squareMid = Plane.SPANNING ∧
      (Plane.splitPolygon ratSqrt planeYZ squareMid).front.length = 1 ∧
      (Plane.splitPolygon ratSqrt planeYZ squareMid).back.length = 1 ∧
      ∀ q ∈ (Plane.splitPolygon ratSqrt planeYZ squareMid).front ++
          (Plane.splitPolygon ratSqrt planeYZ squareMid).back,
        q.shared = squareMid.shared := by
  have h := splitPolygon_spanning_fragments ratSqrt planeYZ squareMid (by decide)
  refine ⟨by decide, by decide, by decide, ?_⟩
  intro q hq
  rcases List.mem_append.mp hq with h1 | h2
  · exact h.2.2.2.2.1 q h1
  · exact h.2.2.2.2.2 q h2

/-- Witness for C8 at a concrete input: the one-triangle tree has all
planes non-null, its inversion succeeds, and inverting the fresh empty
node fails. -/
theorem build_planes_invert_safe_witness :
    Node.planesOk nodeT = true ∧ (Node.invert nodeT).isSome = true ∧
      Node.invert (Node.empty : Node ℕ) = none :=
  ⟨((build_planes_invert_safe (S := ℕ)).1 ratSqrt 1 [triXY] nodeT (by simp) rfl).1,
    ((build_planes_invert_safe (S := ℕ)).1 ratSqrt 1 [triXY] nodeT (by simp) rfl).2,
    (build_planes_invert_safe (S := ℕ)).2⟩

/-- Witness for C6 at a concrete input: inverting the one-triangle tree
twice returns to `nodeT` itself, so the flattened position multisets
agree. -/
theorem invert_involution_positions_witness :
    Node.invert nodeT = some nodeTInv ∧ Node.invert nodeTInv = some nodeT ∧
      nodePositionMultiset nodeT = nodePositionMultiset nodeT :=
  ⟨rfl, rfl,
    invert_involution_positions ratSqrt 1 [triXY] nodeT nodeTInv nodeT (by simp) rfl rfl rfl⟩

/-- C1 counterexample: a wholly coplanar polygon IS discarded by
`clipPolygons`.  `nodeT` is the tree built from the single triangle
`triXY` (non-null plane, no back child); clipping the oppositely
oriented coplanar triangle `triXY.flip` against it returns the empty
list, because the source call
`splitPolygon(polygons[i], front, back, front, back)` routes
coplanar-back polygons into the local `back` list, which is dropped
when the node has no back child — contradicting "coplanar fragments are
treated as in front and are never discarded at the clipPolygons
stage". -/
theorem coplanar_polygon_discarded_cex :
    Node.new ratSqrt 1 [triXY] = some nodeT ∧
      nodeT.plane = some planeZ ∧ nodeT.back = none ∧
      Plane.polygonTypeOf planeZ (Polygon.flip triXY) = Plane.COPLANAR ∧
      Node.clipPolygons ratSqrt nodeT [Polygon.flip triXY] = [] :=
  ⟨rfl, rfl, rfl, by decide, rfl⟩

/-- Witness for the amended C1 at a concrete input: the same-orientation
coplanar triangle is treated as in front and survives clipping against
`nodeT` unchanged. -/
theorem clipPolygons_coplanar_routing_witness :
    Plane.polygonTypeOf planeZ triXY = Plane.COPLANAR ∧
      Node.clipPolygons ratSqrt nodeT [triXY] = [triXY] :=
  ⟨by decide,
    (clipPolygons_coplanar_routing ratSqrt nodeT planeZ triXY rfl (by decide)).1
      (by decide) rfl⟩

set_option maxRecDepth 10000 in
/-- C3 counterexample: both computations succeed on the concrete pair
`soupA` (a square in `z = 0` plus a square crossing it, whose BSP build
performs a spanning split with a crossing on the wrap-around edge) and
`farB` (a triangle at `z = -5`), yet `subtract(A,B)` and
`inverse(union(inverse(A),B))` do NOT yield the same unordered
collection of polygons by vertex positions: corresponding split
fragments come out with cyclically rotated vertex sequences.  All
numbers arising in this computation are exactly representable both in
`ℚ` and in binary floating point, and every square root taken is of a
perfect square, so `ratSqrt` agrees with `Math.sqrt` throughout. -/
theorem subtract_complement_identity_cex :
    (CSG.subtract ratSqrt 10 soupA farB).isSome = true ∧
      ((CSG.union ratSqrt 10 (CSG.inverse ratSqrt soupA) farB).map
          (CSG.inverse ratSqrt)).isSome = true ∧
      (CSG.subtract ratSqrt 10 soupA farB).map positionMultiset ≠
        ((CSG.union ratSqrt 10 (CSG.inverse ratSqrt soupA) farB).map
            (CSG.inverse ratSqrt)).map positionMultiset :=
  ⟨by decide, by decide, by decide⟩

end ConcreteEvaluations

end Csg
